import Mathlib

/-!
Verification of the floor-plan editor geometry engine of P2_IntDesignApp.

This file gives a shallow embedding, in Lean 4, of the geometry kernel,
snapping engine, opening resolver, wall mesh builder and edit history of the
Konva-based layout canvas (the large client component of the frontend).
JavaScript numbers are idealised as real numbers (exact arithmetic, no
rounding error); `Math.hypot` becomes `hypot` below, `x.toFixed(n)` becomes
rounding to `n` decimal places, and JS `null`/`undefined` become `Option`.
Definitions keep the source names and structure; theorems about the frozen
specification claims follow the definitions.
-/

namespace P2

noncomputable section
open Classical

/-- A world-space point, source type `Point = { x, y }`. -/
structure Pt where
  x : ℝ
  y : ℝ

theorem Pt.ext_iff_xy {a b : Pt} : a = b ↔ a.x = b.x ∧ a.y = b.y := by
  cases a; cases b; simp

/-- Model of `Math.hypot(x, y)`. -/
def hypot (x y : ℝ) : ℝ := Real.sqrt (x ^ 2 + y ^ 2)

theorem hypot_nonneg (x y : ℝ) : 0 ≤ hypot x y := Real.sqrt_nonneg _

theorem hypot_eq_zero_iff {x y : ℝ} : hypot x y = 0 ↔ x = 0 ∧ y = 0 := by
  unfold hypot
  rw [Real.sqrt_eq_zero (by positivity)]
  constructor
  · intro h
    constructor
    · nlinarith [sq_nonneg x, sq_nonneg y]
    · nlinarith [sq_nonneg x, sq_nonneg y]
  · rintro ⟨rfl, rfl⟩; ring

theorem hypot_mul (c x y : ℝ) : hypot (c * x) (c * y) = |c| * hypot x y := by
  unfold hypot
  rw [show (c * x) ^ 2 + (c * y) ^ 2 = c ^ 2 * (x ^ 2 + y ^ 2) by ring,
    Real.sqrt_mul (by positivity), Real.sqrt_sq_eq_abs]

theorem hypot_zero_right (x : ℝ) : hypot x 0 = |x| := by
  unfold hypot; rw [show x ^ 2 + 0 ^ 2 = x ^ 2 by ring, Real.sqrt_sq_eq_abs]

theorem hypot_zero_left (y : ℝ) : hypot 0 y = |y| := by
  unfold hypot; rw [show 0 ^ 2 + y ^ 2 = y ^ 2 by ring, Real.sqrt_sq_eq_abs]

theorem hypot_lt_iff {x y c : ℝ} (hc : 0 ≤ c) : hypot x y < c ↔ x ^ 2 + y ^ 2 < c ^ 2 := by
  unfold hypot
  rw [show c = Real.sqrt (c ^ 2) by rw [Real.sqrt_sq hc]]
  rw [Real.sqrt_lt_sqrt_iff (by positivity), Real.sqrt_sq hc]

theorem hypot_le_iff {x y c : ℝ} (hc : 0 ≤ c) : hypot x y ≤ c ↔ x ^ 2 + y ^ 2 ≤ c ^ 2 := by
  constructor
  · intro h
    have h2 : Real.sqrt (x ^ 2 + y ^ 2) ≤ c := h
    nlinarith [Real.sq_sqrt (show (0:ℝ) ≤ x ^ 2 + y ^ 2 by positivity), Real.sqrt_nonneg (x ^ 2 + y ^ 2)]
  · intro h
    calc hypot x y = Real.sqrt (x ^ 2 + y ^ 2) := rfl
      _ ≤ Real.sqrt (c ^ 2) := Real.sqrt_le_sqrt h
      _ = c := Real.sqrt_sq hc

theorem hypot_eq_iff {x y c : ℝ} (hc : 0 ≤ c) : hypot x y = c ↔ x ^ 2 + y ^ 2 = c ^ 2 := by
  constructor
  · intro h
    have := Real.sq_sqrt (show (0:ℝ) ≤ x ^ 2 + y ^ 2 by positivity)
    rw [show Real.sqrt (x ^ 2 + y ^ 2) = hypot x y from rfl, h] at this
    linarith
  · intro h
    unfold hypot
    rw [h, Real.sqrt_sq hc]

/-- Source constant `UNDO_HISTORY_LIMIT = 50`. -/
def UNDO_HISTORY_LIMIT : ℕ := 50

/-- Source constant `OPENING_SNAP_DISTANCE = 40`. -/
def OPENING_SNAP_DISTANCE : ℝ := 40

/-- Source constant `WALL_SNAP_THRESHOLD = 16`. -/
def WALL_SNAP_THRESHOLD : ℝ := 16

/-- Source constant `WALL_CONNECTION_TOLERANCE = 12`. -/
def WALL_CONNECTION_TOLERANCE : ℝ := 12

/-- Model of `Number(v.toFixed(2))`: round to two decimal places
(`toFixed` rounds to nearest, ties toward +infinity, like `round`). -/
def roundTo2 (v : ℝ) : ℝ := (round (v * 100) : ℤ) / 100

/-- Model of `v.toFixed(3)` as used in `toKeyPoint`: round to three decimals. -/
def roundTo3 (v : ℝ) : ℝ := (round (v * 1000) : ℤ) / 1000

theorem roundTo2_intCast (n : ℤ) : roundTo2 (n : ℝ) = (n : ℝ) := by
  unfold roundTo2
  rw [show ((n : ℝ) * 100) = ((n * 100 : ℤ) : ℝ) by push_cast; ring, round_intCast]
  push_cast
  ring

theorem roundTo3_intCast (n : ℤ) : roundTo3 (n : ℝ) = (n : ℝ) := by
  unfold roundTo3
  rw [show ((n : ℝ) * 1000) = ((n * 1000 : ℤ) : ℝ) by push_cast; ring, round_intCast]
  push_cast
  ring

/-- Source `flattenPoints`: flatten a point list to `[x0, y0, x1, y1, ...]`,
each coordinate rounded via `Number(pt.x.toFixed(2))`. -/
def flattenPoints (points : List Pt) : List ℝ :=
  points.flatMap (fun pt => [roundTo2 pt.x, roundTo2 pt.y])

/-- Source `clamp(value, min, max) = Math.max(min, Math.min(max, value))`. -/
def clamp (value mn mx : ℝ) : ℝ := max mn (min mx value)

/-- Source `distanceBetween(a, b) = Math.hypot(b.x - a.x, b.y - a.y)`. -/
def distanceBetween (a b : Pt) : ℝ := hypot (b.x - a.x) (b.y - a.y)

theorem distanceBetween_nonneg (a b : Pt) : 0 ≤ distanceBetween a b := hypot_nonneg _ _

theorem distanceBetween_eq_zero_iff {a b : Pt} : distanceBetween a b = 0 ↔ a = b := by
  unfold distanceBetween
  rw [hypot_eq_zero_iff, Pt.ext_iff_xy]
  constructor
  · rintro ⟨h1, h2⟩; constructor <;> linarith
  · rintro ⟨h1, h2⟩; constructor <;> linarith

/-- Source `normalizeVector(dx, dy)`: scale to unit length;
`Math.hypot(dx, dy) || 1` guards the zero vector by dividing by 1 instead. -/
def normalizeVector (dx dy : ℝ) : Pt :=
  let length := if hypot dx dy = 0 then 1 else hypot dx dy
  ⟨dx / length, dy / length⟩

/-- Source `mmToPx(mm) = Math.max(4, mm / 10)`. -/
def mmToPx (mm : ℝ) : ℝ := max 4 (mm / 10)

/-- Source `pxToMm(px) = Math.round(px * 10)` (`Math.round` is round half up). -/
def pxToMm (px : ℝ) : ℝ := (round (px * 10) : ℤ)

/-- Source `closestPointOnSegment` result `{ closest, distance, angle, t }`. -/
structure ClosestPointResult where
  closest : Pt
  distance : ℝ
  angle : ℝ
  t : ℝ

/-- Model of `Math.atan2(y, x)` via the complex argument (range `(-pi, pi]`). -/
def atan2 (y x : ℝ) : ℝ := Complex.arg ⟨x, y⟩

/-- Source `closestPointOnSegment(point, start, end)`: clamped projection onto
the segment; `lengthSquared = dx*dx + dy*dy || 1` guards degenerate segments. -/
def closestPointOnSegment (point start fin : Pt) : ClosestPointResult :=
  let dx := fin.x - start.x
  let dy := fin.y - start.y
  let lengthSquared := if dx * dx + dy * dy = 0 then 1 else dx * dx + dy * dy
  let t := max 0 (min 1 (((point.x - start.x) * dx + (point.y - start.y) * dy) / lengthSquared))
  let closest : Pt := ⟨start.x + t * dx, start.y + t * dy⟩
  { closest := closest
    distance := hypot (point.x - closest.x) (point.y - closest.y)
    angle := atan2 dy dx
    t := t }

/-- Loop body of `splitPathAtLength`: walk the segments keeping the built-up
prefix (accumulated here in reverse) and the remaining length to consume;
`none` means the loop ran off the end of the path (early `return`s are `some`).
Zero-length segments are skipped (`continue`) without pushing a point. -/
def splitGo (start : Pt) (rest : List Pt) (pref : List Pt) (remaining : ℝ) :
    Option (List Pt × List Pt) :=
  match rest with
  | [] => none
  | next :: tail =>
    let segLen := distanceBetween start next
    if segLen = 0 then splitGo next tail pref remaining
    else if remaining < segLen then
      let frac := remaining / segLen
      let newPoint : Pt := ⟨start.x + frac * (next.x - start.x), start.y + frac * (next.y - start.y)⟩
      some ((newPoint :: pref).reverse, newPoint :: next :: tail)
    else if remaining = segLen then
      some ((next :: pref).reverse, next :: tail)
    else
      splitGo next tail (next :: pref) (remaining - segLen)

/-- Source `splitPathAtLength(points, target)`: split a polyline at a given
arc length, returning `{ prefix, remainder }`. When the loop exhausts the
path the source returns `{ prefix: [...points], remainder: [lastPoint] }`. -/
def splitPathAtLength (points : List Pt) (target : ℝ) : List Pt × List Pt :=
  match points with
  | [] => ([], [])
  | p :: rest =>
    if target ≤ 0 then ([p], points)
    else
      match splitGo p rest [p] target with
      | some result => result
      | none => (points, [List.getLastD rest p])

/-- Loop body of `normalizePath`: keep a point unless it has exactly the same
coordinates as the previously kept point. -/
def normGo (prev : Pt) : List Pt → List Pt
  | [] => []
  | q :: rest =>
    if q.x = prev.x ∧ q.y = prev.y then normGo prev rest else q :: normGo q rest

/-- Source `normalizePath(points)`: drop consecutive duplicate points. -/
def normalizePath : List Pt → List Pt
  | [] => []
  | p :: rest => p :: normGo p rest

/-- Source `getPathLength(points)`: sum of consecutive segment lengths. -/
def getPathLength : List Pt → ℝ
  | a :: b :: rest => distanceBetween a b + getPathLength (b :: rest)
  | _ => 0

/-- Source `extractPathSection(points, start, end)`: the sub-path covering the
arc-length range `[start, end]`, via two splits. -/
def extractPathSection (points : List Pt) (start fin : ℝ) : List Pt :=
  if fin ≤ start then []
  else (splitPathAtLength (splitPathAtLength points start).2 (fin - start)).1

/-- An arc-length interval `{ start, end }` (the source field `end` is a Lean
keyword, so it is called `stop` here). -/
structure CutInterval where
  start : ℝ
  stop : ℝ

/-- Loop body of `subtractIntervalsFromPath`: walk the sorted intervals with a
cursor, emitting each kept section of length ≥ 2 points (normalized), then the
final section after the last interval. -/
def subtractGo (points : List Pt) (totalLength : ℝ) : ℝ → List CutInterval → List (List Pt)
  | cursor, [] =>
    if cursor < totalLength then
      let finalSegment := extractPathSection points cursor totalLength
      if 2 ≤ finalSegment.length then [normalizePath finalSegment] else []
    else []
  | cursor, iv :: rest =>
    (if cursor < iv.start then
      let segment := extractPathSection points cursor iv.start
      if 2 ≤ segment.length then [normalizePath segment] else []
    else []) ++ subtractGo points totalLength (max cursor iv.stop) rest

/-- Source `subtractIntervalsFromPath(points, intervals)`: remove the given
arc-length ranges from the path, returning the remaining sub-paths. Intervals
are clamped to `[0, totalLength]`, degenerate ones dropped, then sorted by
start (the JS `Array.sort` comparator, modelled by a merge sort). -/
def subtractIntervalsFromPath (points : List Pt) (intervals : List CutInterval) :
    List (List Pt) :=
  if intervals = [] then [normalizePath points]
  else
    let totalLength := getPathLength points
    if totalLength = 0 then []
    else
      let normalizedIntervals :=
        ((intervals.map (fun i =>
            CutInterval.mk (max 0 (min i.start totalLength)) (max 0 (min i.stop totalLength)))).filter
          (fun i => i.start < i.stop)).mergeSort (fun a b => decide (a.start ≤ b.start))
      subtractGo points totalLength 0 normalizedIntervals

/-- Source `toPointPairs(values)`: fold a flat `[x0, y0, x1, y1, ...]` list
into points (an odd trailing value, which would yield a NaN point in JS, is
dropped). -/
def toPointPairs : List ℝ → List Pt
  | x :: y :: rest => ⟨x, y⟩ :: toPointPairs rest
  | _ => []

/-- Source `sampleQuadraticPoints(start, control, end, segments)`: sample the
quadratic Bezier curve at `safeSegments + 1` evenly spaced parameters. -/
def sampleQuadraticPoints (start control fin : Pt) (segments : ℕ) : List Pt :=
  let safeSegments := max 2 segments
  (List.range (safeSegments + 1)).map fun i =>
    let t : ℝ := (i : ℝ) / (safeSegments : ℝ)
    let oneMinusT := 1 - t
    ⟨oneMinusT * oneMinusT * start.x + 2 * oneMinusT * t * control.x + t * t * fin.x,
     oneMinusT * oneMinusT * start.y + 2 * oneMinusT * t * control.y + t * t * fin.y⟩

/-- Source `boundsFromPoints` result `{ left, top, width, height }`. -/
structure Bounds where
  left : ℝ
  top : ℝ
  width : ℝ
  height : ℝ

/-- Source `boundsFromPoints(points)`: axis-aligned bounding box, width and
height clamped to at least 1. -/
def boundsFromPoints (points : List Pt) : Bounds :=
  match points with
  | [] => ⟨0, 0, 0, 0⟩
  | p :: rest =>
    let left := (rest.map Pt.x).foldl min p.x
    let top := (rest.map Pt.y).foldl min p.y
    let width := (rest.map Pt.x).foldl max p.x - left
    let height := (rest.map Pt.y).foldl max p.y - top
    ⟨left, top, max width 1, max height 1⟩

/-- Source `LayoutElementType = 'wall' | 'door' | 'window'`. -/
inductive LayoutElementType
  | wall
  | door
  | window
deriving DecidableEq

/-- Source `LayoutGeometry`: wall geometries carry a flat number list; an
opening carries its placement data (optional fields are JS-optional). -/
inductive LayoutGeometry
  | polyline (points : List ℝ)
  | rectangle (points : List ℝ)
  | arc (points : List ℝ)
  | opening (width height x y : ℝ) (angle : Option ℝ) (wallId : Option String)
      (distanceAlongPath : Option ℝ) (wallPathLength : Option ℝ) (heightMm : Option ℝ)

/-- Source `LayoutElement`. -/
structure LayoutElement where
  id : String
  type : LayoutElementType
  label : String
  width : ℝ
  height : ℝ
  left : ℝ
  top : ℝ
  angle : ℝ
  fill : String
  geometry : Option LayoutGeometry
  thicknessMm : Option ℝ
  materialName : Option String

/-- True when the element's geometry is an opening. -/
def LayoutGeometry.isOpening : LayoutGeometry → Prop
  | .opening .. => True
  | _ => False

instance : DecidablePred LayoutGeometry.isOpening := fun g => by
  cases g <;> simp [LayoutGeometry.isOpening] <;> infer_instance

/-- Source `getWallPathPoints(element)`: polyline/rectangle points literally,
arcs sampled with 48 segments (missing arc coordinates default like JS
destructuring; the claims never exercise short arc lists). -/
def getWallPathPoints (element : LayoutElement) : List Pt :=
  match element.geometry with
  | none => []
  | some (.polyline pts) => toPointPairs pts
  | some (.arc pts) =>
      sampleQuadraticPoints ⟨pts.getD 0 0, pts.getD 1 0⟩ ⟨pts.getD 2 0, pts.getD 3 0⟩
        ⟨pts.getD 4 0, pts.getD 5 0⟩ 48
  | some (.rectangle pts) => toPointPairs pts
  | some (.opening ..) => []

/-- Source `SnapResult`. -/
structure SnapResult where
  point : Pt
  angle : ℝ
  wallId : String
  pathPoints : List Pt
  pathLength : ℝ
  distanceAlongPath : ℝ

/-- Inner loop of `findSnapPointOnWalls` over one wall's segments, carrying the
cumulative arc length and the best `(result, bestDistance)` so far (`none`
models the initial `best = null`, `bestDistance = Infinity`). Zero-length
segments are skipped. -/
def snapSegGo (point : Pt) (wallId : String) (path : List Pt) (totalLength : ℝ) :
    ℝ → List Pt → Option (SnapResult × ℝ) → Option (SnapResult × ℝ)
  | _, [], best => best
  | _, [_], best => best
  | cumulative, a :: b :: rest, best =>
    let segmentLength := distanceBetween a b
    if segmentLength = 0 then snapSegGo point wallId path totalLength cumulative (b :: rest) best
    else
      let c := closestPointOnSegment point a b
      let candidate : SnapResult :=
        { point := c.closest
          angle := c.angle * 180 / Real.pi
          wallId := wallId
          pathPoints := path
          pathLength := totalLength
          distanceAlongPath := cumulative + c.t * segmentLength }
      let best' :=
        match best with
        | none => some (candidate, c.distance)
        | some (r, bd) => if c.distance < bd then some (candidate, c.distance) else some (r, bd)
      snapSegGo point wallId path totalLength (cumulative + segmentLength) (b :: rest) best'

/-- Source `findSnapPointOnWalls(point, walls)`: the globally closest
projection of `point` onto any sampled wall segment, or `null` when the best
distance exceeds `OPENING_SNAP_DISTANCE`. -/
def findSnapPointOnWalls (point : Pt) (walls : List LayoutElement) : Option SnapResult :=
  let best := walls.foldl
    (fun best wall =>
      let path := getWallPathPoints wall
      if path.length < 2 then best
      else snapSegGo point wall.id path (getPathLength path) 0 path best)
    none
  match best with
  | none => none
  | some (r, bd) => if OPENING_SNAP_DISTANCE < bd then none else some r

/-- Convenience: indexing into a point list with the origin as JS-undefined
placeholder (used only at indices the source has checked to exist). -/
def ptAt (l : List Pt) (i : ℕ) : Pt := l.getD i ⟨0, 0⟩

/-- Source `wallElements`: elements of type wall that have a geometry. -/
def wallElements (elements : List LayoutElement) : List LayoutElement :=
  elements.filter fun e => decide (e.type = .wall) && e.geometry.isSome

/-- One entry of `wallSnapRefs`: a wall id plus one of its path endpoints. -/
structure WallSnapRef where
  wallId : String
  point : Pt

/-- Source `wallSnapRefs`: first and last path point of every wall. -/
def wallSnapRefs (elements : List LayoutElement) : List WallSnapRef :=
  (wallElements elements).flatMap fun wall =>
    match getWallPathPoints wall with
    | a :: b :: rest => [⟨wall.id, a⟩, ⟨wall.id, List.getLastD rest b⟩]
    | _ => []

/-- Source `wallSnapPoints`: the snap candidate points of `wallSnapRefs`. -/
def wallSnapPoints (elements : List LayoutElement) : List Pt :=
  (wallSnapRefs elements).map (·.point)

/-- Source `applyOrthoPoint(point, anchor)`: with ortho mode on and an anchor,
lock to the axis with the smaller deviation. -/
def applyOrthoPoint (orthoMode : Bool) (point : Pt) (anchor : Option Pt) : Pt :=
  if ¬orthoMode then point
  else
    match anchor with
    | none => point
    | some anchor =>
      let dx := point.x - anchor.x
      let dy := point.y - anchor.y
      if |dy| ≤ |dx| then ⟨point.x, anchor.y⟩ else ⟨anchor.x, point.y⟩

/-- Source `getSnappedPoint(point, anchor?, extraPoints)`: ortho-adjust, then
snap to the nearest wall endpoint or extra candidate strictly closer than
`WALL_SNAP_THRESHOLD`. -/
def getSnappedPoint (orthoMode : Bool) (elements : List LayoutElement) (point : Pt)
    (anchor : Option Pt) (extraPoints : List Pt) : Pt :=
  let basePoint := match anchor with
    | some a => applyOrthoPoint orthoMode point (some a)
    | none => point
  let candidates := wallSnapPoints elements ++ extraPoints
  (candidates.foldl
    (fun (acc : Pt × ℝ) candidate =>
      let dist := distanceBetween basePoint candidate
      if dist < acc.2 then (candidate, dist) else acc)
    (basePoint, WALL_SNAP_THRESHOLD)).1

/-- Source `openingsByWall` looked up at one wall id: the occupied arc-length
interval of every opening bound to that wall (start clamped at 0), sorted by
start. -/
def openingCutIntervals (elements : List LayoutElement) (wallId : String) : List CutInterval :=
  (elements.filterMap fun e =>
    match e.geometry with
    | some (.opening _ _ _ _ _ (some wid) (some d) _ _) =>
        if wid = "" then none
        else if wid = wallId then
          some (CutInterval.mk (max 0 (d - e.width / 2)) (d + e.width / 2))
        else none
    | _ => none).mergeSort (fun a b => decide (a.start ≤ b.start))

/-- Source `extendOpenPath(points, extension, { extendStart, extendEnd })`:
extend the first/last point outward along the adjoining segment direction,
skipping closed loops. The end direction is computed on the already
start-extended list, as in the source. -/
def extendOpenPath (points : List Pt) (extension : ℝ) (extendStart extendEnd : Bool) :
    List Pt :=
  if extension ≤ 0 ∨ points.length < 2 then points
  else if distanceBetween (points.headD ⟨0, 0⟩) (points.getLastD ⟨0, 0⟩) < 0.5 then points
  else if ¬extendStart ∧ ¬extendEnd then points
  else
    let cloned1 :=
      if extendStart then
        let dir := normalizeVector ((ptAt points 1).x - (ptAt points 0).x)
          ((ptAt points 1).y - (ptAt points 0).y)
        points.set 0 ⟨(ptAt points 0).x - dir.x * extension, (ptAt points 0).y - dir.y * extension⟩
      else points
    if extendEnd then
      let lastIdx := cloned1.length - 1
      let dir := normalizeVector ((ptAt cloned1 lastIdx).x - (ptAt cloned1 (lastIdx - 1)).x)
        ((ptAt cloned1 lastIdx).y - (ptAt cloned1 (lastIdx - 1)).y)
      cloned1.set lastIdx
        ⟨(ptAt cloned1 lastIdx).x + dir.x * extension, (ptAt cloned1 lastIdx).y + dir.y * extension⟩
    else cloned1

/-- Source `buildSegmentPolygon(start, end, width)`: the thickness rectangle
of one straight segment, corners in perpendicular-offset order. -/
def buildSegmentPolygon (start fin : Pt) (width : ℝ) : List Pt :=
  let half := width / 2
  let direction := normalizeVector (fin.x - start.x) (fin.y - start.y)
  let perp : Pt := ⟨-direction.y, direction.x⟩
  [⟨start.x + perp.x * half, start.y + perp.y * half⟩,
   ⟨fin.x + perp.x * half, fin.y + perp.y * half⟩,
   ⟨fin.x - perp.x * half, fin.y - perp.y * half⟩,
   ⟨start.x - perp.x * half, start.y - perp.y * half⟩]

/-- Source `toKeyPoint(point)`: the pair of coordinates rounded to three
decimals (the source formats them as fixed-point strings; the rounded values
determine the string, so key collisions agree). -/
def toKeyPoint (point : Pt) : ℝ × ℝ := (roundTo3 point.x, roundTo3 point.y)

/-- A canonical total order on key points, standing in for the source's
lexicographic comparison of the formatted strings: any total order yields the
same undirected-edge collision classes. -/
def keyPointLe (a b : ℝ × ℝ) : Prop := a.1 < b.1 ∨ (a.1 = b.1 ∧ a.2 ≤ b.2)

/-- The key type of the outline-edge map: an ordered pair of key points. -/
def EdgeKey : Type := (ℝ × ℝ) × (ℝ × ℝ)

/-- Source `edgeKey(a, b)`: the undirected key of an edge, canonically
ordering the two rounded endpoints. -/
def edgeKey (a b : Pt) : EdgeKey :=
  let aKey := toKeyPoint a
  let bKey := toKeyPoint b
  if keyPointLe aKey bKey then (aKey, bKey) else (bKey, aKey)

/-- Source `OutlineEdge = { points, color }`. -/
structure OutlineEdge where
  points : Pt × Pt
  color : String

/-- Source `registerOutlineEdge(pointA, pointB, color)` acting on the
`outlineEdgeMap` (modelled as an association list keyed by `EdgeKey`): delete
the key when present, insert it otherwise. -/
def registerOutlineEdge (m : List (EdgeKey × OutlineEdge)) (pointA pointB : Pt)
    (color : String) : List (EdgeKey × OutlineEdge) :=
  let key := edgeKey pointA pointB
  if m.any (fun e => decide (e.1 = key)) then m.filter (fun e => decide (¬e.1 = key))
  else m ++ [(key, ⟨(pointA, pointB), color⟩)]

/-- Source `ConnectionPatchFragment`. -/
structure ConnectionPatchFragment where
  wallId : String
  points : Pt × Pt
  color : String

/-- Source `ConnectionPatchEntry`. -/
structure ConnectionPatchEntry where
  point : Pt
  fragments : List ConnectionPatchFragment

/-- Source `addConnectionFragment(point, fragment)` acting on the
`connectionPatchMap` (association list keyed by the rounded point). -/
def addConnectionFragment (m : List ((ℝ × ℝ) × ConnectionPatchEntry)) (point : Pt)
    (fragment : ConnectionPatchFragment) : List ((ℝ × ℝ) × ConnectionPatchEntry) :=
  let key := toKeyPoint point
  if m.any (fun e => decide (e.1 = key)) then
    m.map fun e =>
      if e.1 = key then (e.1, ⟨e.2.point, e.2.fragments ++ [fragment]⟩) else e
  else m ++ [(key, ⟨point, [fragment]⟩)]

/-- One rendered wall shape: the polygon branch (closed filled polygon) or
the fallback stroked line of `wallShapes`. -/
inductive WallShape
  | polygonShape (points : List ℝ) (fill : String)
  | lineShape (points : List ℝ) (stroke : String) (strokeWidth : ℝ)

/-- The accumulated output of the wall mesh builder: shapes plus the two
side-effect maps the source mutates while rendering. -/
structure MeshAcc where
  shapes : List WallShape
  outline : List (EdgeKey × OutlineEdge)
  patches : List ((ℝ × ℝ) × ConnectionPatchEntry)

/-- Per-segment body of `wallShapes`: decide connectedness of the two segment
ends against the other walls' endpoints, extend the open path, then either
build the thickness polygon (registering outline edges and junction
fragments) or fall back to a stroked line. -/
def processWallSegment (refs : List WallSnapRef) (element : LayoutElement)
    (strokeWidth : ℝ) (outlineColor fillColor : String) (acc : MeshAcc)
    (segment : List Pt) : MeshAcc :=
  let extensionAmount := strokeWidth / 2
  let startConnected := refs.any fun ref =>
    decide (ref.wallId ≠ element.id ∧
      distanceBetween ref.point (segment.headD ⟨0, 0⟩) ≤ WALL_CONNECTION_TOLERANCE / 2)
  let endConnected := refs.any fun ref =>
    decide (ref.wallId ≠ element.id ∧
      distanceBetween ref.point (segment.getLastD ⟨0, 0⟩) ≤ WALL_CONNECTION_TOLERANCE / 2)
  let extendedSegment := extendOpenPath segment extensionAmount startConnected endConnected
  if extendedSegment.length = 2 then
    let polygon := buildSegmentPolygon (ptAt extendedSegment 0) (ptAt extendedSegment 1) strokeWidth
    let p0 := ptAt polygon 0
    let p1 := ptAt polygon 1
    let p2 := ptAt polygon 2
    let p3 := ptAt polygon 3
    let o1 := registerOutlineEdge acc.outline p0 p1 outlineColor
    let o2 := registerOutlineEdge o1 p2 p3 outlineColor
    let segEnd := segment.getLastD ⟨0, 0⟩
    let segStart := segment.headD ⟨0, 0⟩
    let afterEnd : List (EdgeKey × OutlineEdge) × List ((ℝ × ℝ) × ConnectionPatchEntry) :=
      if !endConnected then (registerOutlineEdge o2 p1 p2 outlineColor, acc.patches)
      else
        (o2,
          addConnectionFragment
            (addConnectionFragment acc.patches segEnd ⟨element.id, (p1, p0), fillColor⟩)
            segEnd ⟨element.id, (p2, p3), fillColor⟩)
    let afterStart : List (EdgeKey × OutlineEdge) × List ((ℝ × ℝ) × ConnectionPatchEntry) :=
      if !startConnected then (registerOutlineEdge afterEnd.1 p3 p0 outlineColor, afterEnd.2)
      else
        (afterEnd.1,
          addConnectionFragment
            (addConnectionFragment afterEnd.2 segStart ⟨element.id, (p0, p1), fillColor⟩)
            segStart ⟨element.id, (p3, p2), fillColor⟩)
    { shapes := acc.shapes ++ [.polygonShape (flattenPoints (polygon ++ [p0])) fillColor]
      outline := afterStart.1
      patches := afterStart.2 }
  else
    { acc with
      shapes := acc.shapes ++ [.lineShape (flattenPoints extendedSegment) fillColor strokeWidth] }

/-- Per-element body of `wallShapes`: skip non-walls, opening geometries and
degenerate paths; cut the path by the wall's opening intervals and process
every remaining segment. -/
def wallShapesStep (refs : List WallSnapRef) (selectedElementId : Option String)
    (wallThicknessMm : ℝ) (cuts : String → List CutInterval) (acc : MeshAcc)
    (element : LayoutElement) : MeshAcc :=
  match element.geometry with
  | none => acc
  | some g =>
    if element.type ≠ .wall ∨ g.isOpening then acc
    else
      let pathPoints := getWallPathPoints element
      if pathPoints.length < 2 then acc
      else
        let fillColor := element.fill
        let strokeWidth := mmToPx (element.thicknessMm.getD wallThicknessMm)
        let outlineColor := if selectedElementId = some element.id then "#4f46e5" else "#000000"
        let segments := subtractIntervalsFromPath pathPoints (cuts element.id)
        segments.foldl (processWallSegment refs element strokeWidth outlineColor fillColor) acc

/-- Source `wallShapes` (together with the `outlineEdgeMap` and
`connectionPatchMap` it fills): fold the mesh builder over the element list. -/
def wallShapes (elements : List LayoutElement) (selectedElementId : Option String)
    (wallThicknessMm : ℝ) : MeshAcc :=
  elements.foldl
    (wallShapesStep (wallSnapRefs elements) selectedElementId wallThicknessMm
      (openingCutIntervals elements))
    ⟨[], [], []⟩

/-- Source `getOpeningCenter(element)`. -/
def getOpeningCenter (element : LayoutElement) : Pt :=
  ⟨element.left + element.width / 2, element.top + element.height / 2⟩

/-- Source `palette` entry type. -/
structure PaletteEntry where
  label : String
  fill : String
  width : ℝ
  height : ℝ
  opacity : ℝ

/-- Source `palette` (door/window only; the wall case is unreachable and
mirrors the door entry). -/
def palette : LayoutElementType → PaletteEntry
  | .door => ⟨"Door", "#f97316", 120, 18, 0.9⟩
  | .window => ⟨"Window", "#3c6ff0", 200, 18, 0.65⟩
  | .wall => ⟨"Door", "#f97316", 120, 18, 0.9⟩

/-- Source `adjustWallEndpointGeometry(element, referencePoint, delta,
tolerance)`: translate whichever path endpoints lie within `tolerance` of the
reference point; `null` when nothing moved. The result is re-bounded and its
geometry rewritten as a polyline, as in the source. -/
def adjustWallEndpointGeometry (element : LayoutElement) (referencePoint delta : Pt)
    (tolerance : ℝ) : Option LayoutElement :=
  match element.geometry with
  | none => none
  | some g =>
    if g.isOpening then none
    else
      let path := getWallPathPoints element
      if path.length < 2 then none
      else
        let c1 := distanceBetween (ptAt path 0) referencePoint ≤ tolerance
        let path1 :=
          if c1 then
            path.set 0 ⟨(ptAt path 0).x + delta.x, (ptAt path 0).y + delta.y⟩
          else path
        let lastIndex := path.length - 1
        let cLast := distanceBetween (ptAt path1 lastIndex) referencePoint ≤ tolerance
        let path2 :=
          if cLast then
            path1.set lastIndex
              ⟨(ptAt path1 lastIndex).x + delta.x, (ptAt path1 lastIndex).y + delta.y⟩
          else path1
        if ¬c1 ∧ ¬cLast then none
        else
          let bounds := boundsFromPoints path2
          some { element with
            left := bounds.left
            top := bounds.top
            width := bounds.width
            height := bounds.height
            geometry := some (.polyline (flattenPoints path2)) }

/-- Source `propagateWallConnections(elements, movedIndex, originalEndpoints,
updatedEndpoints)`: apply each endpoint's movement delta to every other wall
endpoint that coincided (within the connection tolerance) with the original
position. -/
def propagateWallConnections (elements : List LayoutElement) (movedIndex : ℕ)
    (originalEndpoints updatedEndpoints : Pt × Pt) : List LayoutElement :=
  let adjustments : List (Pt × Pt) :=
    ([(originalEndpoints.1,
        Pt.mk (updatedEndpoints.1.x - originalEndpoints.1.x)
          (updatedEndpoints.1.y - originalEndpoints.1.y)),
      (originalEndpoints.2,
        Pt.mk (updatedEndpoints.2.x - originalEndpoints.2.x)
          (updatedEndpoints.2.y - originalEndpoints.2.y))]).filter
      fun a => 0.01 < |a.2.x| ∨ 0.01 < |a.2.y|
  if adjustments = [] then elements
  else
    elements.mapIdx fun i element =>
      if i = movedIndex then element
      else
        match element.geometry with
        | none => element
        | some g =>
          if g.isOpening then element
          else
            adjustments.foldl
              (fun acc adj =>
                (adjustWallEndpointGeometry acc adj.1 adj.2 WALL_CONNECTION_TOLERANCE).getD acc)
              element

/-- The editor component state the claims concern: the element list, the undo
history stack (oldest first, as in the JS array), the selection, the endpoint
drag snapshot guard and the ortho-mode flag. -/
structure EditorState where
  elements : List LayoutElement
  history : List (List LayoutElement)
  selectedElementId : Option String
  endpointDragSnapshot : Bool
  orthoMode : Bool

/-- The history push used by `applyElementsChange` and
`captureEndpointDragSnapshot`: append the snapshot, then shift the oldest
entry off when the `UNDO_HISTORY_LIMIT` is exceeded. -/
def pushHistory (history : List (List LayoutElement)) (snapshot : List LayoutElement) :
    List (List LayoutElement) :=
  let pushed := history ++ [snapshot]
  if UNDO_HISTORY_LIMIT < pushed.length then pushed.tail else pushed

/-- Source `applyElementsChange(producer, options)`: run the producer on the
current elements; on `null` (which also stands for the source's
`next === elements` reference check) do nothing; otherwise push the
pre-mutation list unless the change is transient, install the new list, and
resolve the selection. Returns the new state with the source's boolean. -/
def applyElementsChange (s : EditorState)
    (producer : List LayoutElement → Option (List LayoutElement)) (transient : Bool)
    (preserveSelectionId : Option String) : EditorState × Bool :=
  match producer s.elements with
  | none => (s, false)
  | some next =>
    let s1 := if transient then s else { s with history := pushHistory s.history s.elements }
    let s2 := { s1 with elements := next }
    let s3 :=
      match preserveSelectionId with
      | some pid =>
        { s2 with selectedElementId := if next.any (fun e => decide (e.id = pid)) then some pid else none }
      | none => if transient then s2 else { s2 with selectedElementId := none }
    (s3, true)

/-- Source `undoLast`: pop the newest history snapshot, if any, and replace
the document with it wholesale. -/
def undoLast (s : EditorState) : EditorState :=
  match s.history.getLast? with
  | none => s
  | some previous =>
    { s with history := s.history.dropLast, selectedElementId := none, elements := previous }

/-- Source `captureEndpointDragSnapshot`: push one pre-drag snapshot, guarded
so only the first call of a gesture pushes. -/
def captureEndpointDragSnapshot (s : EditorState) : EditorState :=
  if s.endpointDragSnapshot then s
  else { s with history := pushHistory s.history s.elements, endpointDragSnapshot := true }

/-- Source `releaseEndpointDragSnapshot`. -/
def releaseEndpointDragSnapshot (s : EditorState) : EditorState :=
  { s with endpointDragSnapshot := false }

/-- Source `applyWallEndpointUpdate(wallId, endpointIndex, point, options)`:
move one endpoint of a polyline wall to the snapped pointer position, skip
sub-half-unit moves, re-bound, and propagate the delta to connected walls. -/
def applyWallEndpointUpdate (s : EditorState) (wallId : String) (endpointIndex : ℕ)
    (point : Pt) (transient : Bool) : EditorState × Bool :=
  applyElementsChange s
    (fun current =>
      match current.findIdx? (fun e => decide (e.id = wallId)) with
      | none => none
      | some index =>
        match current.get? index with
        | none => none
        | some wall =>
          match wall.geometry with
          | some (.polyline _) =>
            let pathPoints := getWallPathPoints wall
            if pathPoints.length < 2 then none
            else
              let len := pathPoints.length
              let targetIndex := if endpointIndex = 0 then 0 else len - 1
              let anchorIndex := if endpointIndex = 0 then min 1 (len - 1) else max (len - 2) 0
              let anchorPoint := ptAt pathPoints anchorIndex
              let snappedPoint := getSnappedPoint s.orthoMode s.elements point (some anchorPoint) []
              if distanceBetween snappedPoint (ptAt pathPoints targetIndex) < 0.5 then none
              else
                let originalEndpoints := (ptAt pathPoints 0, ptAt pathPoints (len - 1))
                let newPath := pathPoints.set targetIndex snappedPoint
                let bounds := boundsFromPoints newPath
                let updated := { wall with
                  left := bounds.left
                  top := bounds.top
                  width := bounds.width
                  height := bounds.height
                  geometry := some (.polyline (flattenPoints newPath)) }
                let next := current.set index updated
                some (propagateWallConnections next index originalEndpoints
                  (ptAt newPath 0, ptAt newPath (newPath.length - 1)))
          | _ => none)
    transient (some wallId)

/-- Source `handleEndpointHandleDragStart`. -/
def handleEndpointHandleDragStart (s : EditorState) : EditorState :=
  captureEndpointDragSnapshot s

/-- Source `handleEndpointHandleDragMove`: a transient endpoint update at the
current pointer position. -/
def handleEndpointHandleDragMove (s : EditorState) (wallId : String) (endpointIndex : ℕ)
    (pointer : Pt) : EditorState :=
  (applyWallEndpointUpdate s wallId endpointIndex pointer true).1

/-- Source `handleEndpointHandleDragEnd`: a final non-transient endpoint
update at the release position, then release the snapshot guard. -/
def handleEndpointHandleDragEnd (s : EditorState) (wallId : String) (endpointIndex : ℕ)
    (pointer : Pt) : EditorState :=
  releaseEndpointDragSnapshot (applyWallEndpointUpdate s wallId endpointIndex pointer false).1

/-- One whole endpoint-drag gesture: drag start, a sequence of intermediate
moves, then the release. -/
def endpointDragGesture (s : EditorState) (wallId : String) (endpointIndex : ℕ)
    (moves : List Pt) (releasePt : Pt) : EditorState :=
  handleEndpointHandleDragEnd
    (moves.foldl (fun st p => handleEndpointHandleDragMove st wallId endpointIndex p)
      (handleEndpointHandleDragStart s))
    wallId endpointIndex releasePt

/-- Source `PendingOpening` (the non-null payload). -/
structure PendingOpening where
  type : LayoutElementType
  width : ℝ
  height : ℝ
  label : String
  infoHeightMm : Option ℝ

/-- Source `commitOpeningSnap(opening, snap, existing?)`: write or update an
opening element from a snap result in a single `applyElementsChange`. The
fresh id stands for the source's random `generateId()`. -/
def commitOpeningSnap (s : EditorState) (opening : Option PendingOpening)
    (snap : SnapResult) (existing : Option LayoutElement) (freshId : String) :
    EditorState × Bool :=
  let openingWidth := match opening with
    | some o => o.width
    | none => match existing with | some e => e.width | none => 0
  let openingHeight := match opening with
    | some o => o.height
    | none => match existing with | some e => e.height | none => 0
  let openingHeightMm := match opening.bind (·.infoHeightMm) with
    | some v => v
    | none =>
      match existing.bind (fun e =>
        match e.geometry with
        | some (.opening _ _ _ _ _ _ _ _ hm) => hm
        | _ => none) with
      | some hm => hm
      | none => pxToMm openingHeight
  if openingWidth = 0 ∨ openingHeight = 0 then (s, false)
  else if ¬s.elements.any (fun e => decide (e.id = snap.wallId)) then (s, false)
  else
    let elementType := match opening with
      | some o => o.type
      | none => match existing with | some e => e.type | none => .door
    let labelBase := match opening with
      | some o => o.label
      | none =>
        -- The source strips a trailing number from `existing.label` here;
        -- that value is only read in the new-element branch below, which is
        -- reached only when `existing` is absent, so the kind default is the
        -- value actually used.
        if elementType = .door then "Door" else "Window"
    let left := snap.point.x - openingWidth / 2
    let top := snap.point.y - openingHeight / 2
    applyElementsChange s
      (fun current =>
        if ¬current.any (fun e => decide (e.id = snap.wallId)) then none
        else
          match existing with
          | some ex =>
            match current.findIdx? (fun e => decide (e.id = ex.id)) with
            | none => none
            | some idx =>
              let updatedElem := { ex with
                left := left
                top := top
                angle := snap.angle
                geometry := some (.opening openingWidth openingHeight left top
                  (some snap.angle) (some snap.wallId) (some snap.distanceAlongPath)
                  (some snap.pathLength) (some openingHeightMm)) }
              some (current.set idx updatedElem)
          | none =>
            let count := (current.filter fun e => decide (e.type = elementType)).length + 1
            let openingElement : LayoutElement :=
              { id := freshId
                type := elementType
                label := labelBase ++ " " ++ toString count
                width := openingWidth
                height := openingHeight
                left := left
                top := top
                angle := snap.angle
                fill := (palette elementType).fill
                geometry := some (.opening openingWidth openingHeight left top
                  (some snap.angle) (some snap.wallId) (some snap.distanceAlongPath)
                  (some snap.pathLength) (some openingHeightMm))
                thicknessMm := none
                materialName := none }
            some (current ++ [openingElement]))
      false none

/-- Source `handleOpeningDrag(element, position, revert)`: re-snap a dragged
opening; on any failure the document is untouched and the caller reverts the
visual transform (`false` result). -/
def handleOpeningDrag (s : EditorState) (element : LayoutElement) (position : Pt)
    (freshId : String) : EditorState × Bool :=
  match element.geometry with
  | some (.opening ..) =>
    (match findSnapPointOnWalls position (wallElements s.elements) with
     | none => (s, false)
     | some snap => commitOpeningSnap s none snap (some element) freshId)
  | _ => (s, false)

/-- The Konva `onDragEnd` wrapper around `handleOpeningDrag`: the drag offset
is added to the opening's center, and the node position is reset to the
identity transform on both success and revert. The second component is the
node's transform after the handler. -/
def handleOpeningDragEnd (s : EditorState) (element : LayoutElement) (dragOffset : Pt)
    (freshId : String) : EditorState × Pt :=
  let center := getOpeningCenter element
  let r := handleOpeningDrag s element
    ⟨center.x + dragOffset.x, center.y + dragOffset.y⟩ freshId
  (r.1, ⟨0, 0⟩)

/-- Source placement flow for a pending opening at a pointer position:
`handleMouseMove` stores `findSnapPointOnWalls(worldPoint, wallElements)` as
the pending snap, and `handleStageMouseDown` calls `finalizePendingOpening`
(which runs `commitOpeningSnap(pendingOpening, pendingSnap, undefined)`) only
when that snap exists; with no snap the click does nothing and the ghost
stays uncommitted. -/
def handleOpeningPlacement (s : EditorState) (opening : PendingOpening) (position : Pt)
    (freshId : String) : EditorState × Bool :=
  match findSnapPointOnWalls position (wallElements s.elements) with
  | none => (s, false)
  | some snap => commitOpeningSnap s (some opening) snap none freshId

/-! ### Claim C9: `normalizeVector` totality and zero-vector fallback -/

theorem normalizeVector_zero : normalizeVector 0 0 = Pt.mk 0 0 := by
  unfold normalizeVector
  rw [if_pos (by rw [hypot_eq_zero_iff]; exact ⟨rfl, rfl⟩)]
  norm_num

/-- Claim C9, counterexample: on the zero vector `normalizeVector` returns the
zero vector (the guard divides by 1), not the unit x-axis vector the claim
states. -/
theorem C9_zero_fallback_counterexample : normalizeVector 0 0 ≠ Pt.mk 1 0 := by
  rw [normalizeVector_zero]
  intro h
  have := congrArg Pt.x h
  norm_num at this

/-- Claim C9, amended: `normalizeVector` is total; on the zero vector it
returns the zero vector (division guarded by 1), and on every non-zero vector
it returns the input scaled to unit length. -/
theorem C9_normalizeVector_amended :
    normalizeVector 0 0 = Pt.mk 0 0 ∧
    ∀ dx dy : ℝ, ¬(dx = 0 ∧ dy = 0) →
      normalizeVector dx dy = Pt.mk (dx / hypot dx dy) (dy / hypot dx dy) ∧
      hypot (normalizeVector dx dy).x (normalizeVector dx dy).y = 1 := by
  refine ⟨normalizeVector_zero, fun dx dy h => ?_⟩
  have hne : hypot dx dy ≠ 0 := fun hz => h (hypot_eq_zero_iff.mp hz)
  have heq : normalizeVector dx dy = Pt.mk (dx / hypot dx dy) (dy / hypot dx dy) := by
    unfold normalizeVector
    rw [if_neg hne]
  refine ⟨heq, ?_⟩
  rw [heq]
  show hypot (dx / hypot dx dy) (dy / hypot dx dy) = 1
  rw [show dx / hypot dx dy = (hypot dx dy)⁻¹ * dx by ring,
    show dy / hypot dx dy = (hypot dx dy)⁻¹ * dy by ring, hypot_mul,
    abs_inv, abs_of_nonneg (hypot_nonneg dx dy)]
  field_simp

/-- Claim C9 witness: the vector (3, 4) normalizes to unit length. -/
theorem C9_normalizeVector_amended_witness :
    hypot (normalizeVector 3 4).x (normalizeVector 3 4).y = 1 :=
  (C9_normalizeVector_amended.2 3 4 (by norm_num)).2

/-! ### Claim C8: outline deduplication by undirected edge key -/

/-- Whether the outline map holds an entry with the given key. -/
def outlineHasKey (m : List (EdgeKey × OutlineEdge)) (k : EdgeKey) : Prop :=
  ∃ e ∈ m, e.1 = k

/-- Folding `registerOutlineEdge` over a whole sequence of edge registrations
(as the mesh builder does while emitting polygons), starting from the empty
map. -/
def registerOutlineEdges (edges : List (Pt × Pt × String)) : List (EdgeKey × OutlineEdge) :=
  edges.foldl (fun m e => registerOutlineEdge m e.1 e.2.1 e.2.2) []

theorem keyPointLe_total (a b : ℝ × ℝ) : keyPointLe a b ∨ keyPointLe b a := by
  unfold keyPointLe
  rcases lt_trichotomy a.1 b.1 with h | h | h
  · exact Or.inl (Or.inl h)
  · rcases le_total a.2 b.2 with h2 | h2
    · exact Or.inl (Or.inr ⟨h, h2⟩)
    · exact Or.inr (Or.inr ⟨h.symm, h2⟩)
  · exact Or.inr (Or.inl h)

theorem keyPointLe_antisymm {a b : ℝ × ℝ} (h1 : keyPointLe a b) (h2 : keyPointLe b a) :
    a = b := by
  unfold keyPointLe at h1 h2
  rcases h1 with h1 | ⟨h1, h1'⟩ <;> rcases h2 with h2 | ⟨h2, h2'⟩
  · exact absurd h2 (not_lt.mpr h1.le)
  · exact absurd h1 (not_lt.mpr h2.le)
  · exact absurd h2 (not_lt.mpr h1.le)
  · exact Prod.ext h1 (le_antisymm h1' h2')

theorem edgeKey_symm (a b : Pt) : edgeKey a b = edgeKey b a := by
  unfold edgeKey
  by_cases h1 : keyPointLe (toKeyPoint a) (toKeyPoint b) <;>
    by_cases h2 : keyPointLe (toKeyPoint b) (toKeyPoint a)
  · rw [if_pos h1, if_pos h2, keyPointLe_antisymm h1 h2]
  · rw [if_pos h1, if_neg h2]
  · rw [if_neg h1, if_pos h2]
  · rcases keyPointLe_total (toKeyPoint a) (toKeyPoint b) with h | h
    · exact absurd h h1
    · exact absurd h h2

theorem registerOutlineEdge_hasKey (m : List (EdgeKey × OutlineEdge)) (a b : Pt)
    (c : String) (k : EdgeKey) :
    outlineHasKey (registerOutlineEdge m a b c) k ↔
      ((edgeKey a b = k ∧ ¬outlineHasKey m k) ∨ (edgeKey a b ≠ k ∧ outlineHasKey m k)) := by
  unfold registerOutlineEdge outlineHasKey
  by_cases hany : m.any (fun e => decide (e.1 = edgeKey a b))
  · rw [if_pos hany]
    have hmem : ∃ e ∈ m, e.1 = edgeKey a b := by
      simpa using hany
    constructor
    · rintro ⟨e, he, rfl⟩
      simp only [List.mem_filter, decide_not] at he
      refine Or.inr ⟨?_, ⟨e, he.1, rfl⟩⟩
      intro hk
      have := he.2
      simp [hk] at this
    · rintro (⟨rfl, hno⟩ | ⟨hne, e, he, rfl⟩)
      · exact absurd hmem hno
      · exact ⟨e, List.mem_filter.mpr ⟨he, by simpa using Ne.symm hne⟩, rfl⟩
  · rw [if_neg hany]
    have hno : ¬∃ e ∈ m, e.1 = edgeKey a b := by
      intro ⟨e, he, hk⟩
      exact hany (List.any_eq_true.mpr ⟨e, he, by simpa using hk⟩)
    constructor
    · rintro ⟨e, he, rfl⟩
      rcases List.mem_append.mp he with h | h
      · refine Or.inr ⟨fun hk => hno ⟨e, h, hk.symm⟩, ⟨e, h, rfl⟩⟩
      · simp only [List.mem_singleton] at h
        subst h
        exact Or.inl ⟨rfl, fun ⟨e', he', hk⟩ => hno ⟨e', he', hk⟩⟩
    · rintro (⟨rfl, _⟩ | ⟨_, e, he, rfl⟩)
      · exact ⟨_, List.mem_append.mpr (Or.inr (List.mem_singleton.mpr rfl)), rfl⟩
      · exact ⟨e, List.mem_append.mpr (Or.inl he), rfl⟩

theorem registerOutlineEdges_fold_parity (edges : List (Pt × Pt × String))
    (m : List (EdgeKey × OutlineEdge)) (k : EdgeKey) :
    outlineHasKey (edges.foldl (fun m e => registerOutlineEdge m e.1 e.2.1 e.2.2) m) k ↔
      ((outlineHasKey m k ∧ ¬Odd (edges.countP (fun e => decide (edgeKey e.1 e.2.1 = k)))) ∨
        (¬outlineHasKey m k ∧ Odd (edges.countP (fun e => decide (edgeKey e.1 e.2.1 = k))))) := by
  induction edges generalizing m with
  | nil => by_cases h : outlineHasKey m k <;> simp [h, List.countP_nil]
  | cons e rest ih =>
    rw [List.foldl_cons, ih, registerOutlineEdge_hasKey]
    by_cases hk : edgeKey e.1 e.2.1 = k <;>
      by_cases hm : outlineHasKey m k <;>
        simp [List.countP_cons, hk, hm, Nat.odd_add_one, Nat.even_add_one, Nat.not_odd_iff_even]

/-- Claim C8: the outline map is keyed by the undirected endpoint pair
(`edgeKey` is symmetric); after registering any sequence of polygon edges, a
key is present exactly when it was registered an odd number of times; in
particular an edge contributed exactly twice (i.e. by two different shapes)
is absent from the final outline-drawing set. -/
theorem C8_outline_dedup :
    (∀ a b : Pt, edgeKey a b = edgeKey b a) ∧
    (∀ (edges : List (Pt × Pt × String)) (k : EdgeKey),
      outlineHasKey (registerOutlineEdges edges) k ↔
        Odd (edges.countP (fun e => decide (edgeKey e.1 e.2.1 = k)))) ∧
    (∀ (edges : List (Pt × Pt × String)) (k : EdgeKey),
      edges.countP (fun e => decide (edgeKey e.1 e.2.1 = k)) = 2 →
        ¬outlineHasKey (registerOutlineEdges edges) k) := by
  have hmain : ∀ (edges : List (Pt × Pt × String)) (k : EdgeKey),
      outlineHasKey (registerOutlineEdges edges) k ↔
        Odd (edges.countP (fun e => decide (edgeKey e.1 e.2.1 = k))) := by
    intro edges k
    unfold registerOutlineEdges
    rw [registerOutlineEdges_fold_parity]
    have hempty : ¬outlineHasKey [] k := by rintro ⟨e, he, _⟩; simp at he
    simp [hempty]
  refine ⟨edgeKey_symm, hmain, fun edges k hcount h => ?_⟩
  rw [hmain, hcount] at h
  exact (Nat.not_odd_iff_even.mpr (by norm_num)) h

/-- Claim C8 witness: an edge registered by two shapes (in either direction)
is absent from the outline set. -/
theorem C8_outline_dedup_witness :
    ¬outlineHasKey
      (registerOutlineEdges
        [(Pt.mk 0 0, Pt.mk 1 0, "#000000"), (Pt.mk 1 0, Pt.mk 0 0, "#000000")])
      (edgeKey (Pt.mk 0 0) (Pt.mk 1 0)) := by
  apply C8_outline_dedup.2.2
  have hsymm := C8_outline_dedup.1 (Pt.mk 0 0) (Pt.mk 1 0)
  simp [List.countP_cons, hsymm]

/-! ### Claim C5: undo exactness over the bounded history -/

/-- The initial component state: empty element list, empty history, nothing
selected, no drag snapshot, ortho mode on (`useState(true)`). -/
def initialEditorState : EditorState := ⟨[], [], none, false, true⟩

/-- One committing (non-transient) mutation whose producer succeeds with the
given new element list; this covers every committing mutation in the source,
whose effect on the document is exactly the produced list. -/
def commitMutation (s : EditorState) (newElements : List LayoutElement) : EditorState :=
  (applyElementsChange s (fun _ => some newElements) false none).1

theorem pushHistory_of_lt {history : List (List LayoutElement)}
    (h : history.length < UNDO_HISTORY_LIMIT) (snapshot : List LayoutElement) :
    pushHistory history snapshot = history ++ [snapshot] := by
  unfold pushHistory
  rw [if_neg]
  simp only [List.length_append, List.length_singleton]
  omega

theorem commitMutation_eq (s : EditorState) (nl : List LayoutElement) :
    commitMutation s nl =
      { s with
        history := pushHistory s.history s.elements
        elements := nl
        selectedElementId := none } := rfl

theorem undoLast_concat (s : EditorState) (H : List (List LayoutElement))
    (E : List LayoutElement) (h : s.history = H ++ [E]) :
    undoLast s = { s with history := H, selectedElementId := none, elements := E } := by
  unfold undoLast
  rw [h, List.getLast?_concat, List.dropLast_concat]

theorem undo_restores (L : List (List LayoutElement)) :
    ∀ s : EditorState, s.history.length + L.length ≤ UNDO_HISTORY_LIMIT →
      (undoLast^[L.length] (L.foldl commitMutation s)).elements = s.elements ∧
      (undoLast^[L.length] (L.foldl commitMutation s)).history = s.history := by
  induction L with
  | nil => intro s _; simp
  | cons nl rest ih =>
    intro s h
    have hlen : s.history.length < UNDO_HISTORY_LIMIT := by
      simp only [List.length_cons] at h; omega
    have hcm : commitMutation s nl =
        { s with
          history := s.history ++ [s.elements]
          elements := nl
          selectedElementId := none } := by
      rw [commitMutation_eq, pushHistory_of_lt hlen]
    rw [List.foldl_cons, List.length_cons, hcm, Function.iterate_succ_apply']
    set s1 : EditorState :=
      { s with
        history := s.history ++ [s.elements]
        elements := nl
        selectedElementId := none } with hs1
    have h1 : s1.history.length + rest.length ≤ UNDO_HISTORY_LIMIT := by
      have hs1h : s1.history = s.history ++ [s.elements] := rfl
      rw [hs1h, List.length_append, List.length_singleton]
      rw [List.length_cons] at h
      omega
    obtain ⟨he, hh⟩ := ih s1 h1
    have hhist : (undoLast^[rest.length] (rest.foldl commitMutation s1)).history =
        s.history ++ [s.elements] := hh
    rw [undoLast_concat _ s.history s.elements hhist]
    exact ⟨rfl, rfl⟩

/-- Claim C5, amended: starting from the empty document, N committing
mutations followed by N undos restore the empty element list, provided
N does not exceed the 50-entry history bound; each mutation pushes the
pre-mutation list and each undo pops the stack and replaces the document
wholesale. -/
theorem C5_undo_exactness_amended (L : List (List LayoutElement)) (s0 : EditorState)
    (h0 : s0.elements = []) (hh : s0.history = []) (hn : L.length ≤ UNDO_HISTORY_LIMIT) :
    (undoLast^[L.length] (L.foldl commitMutation s0)).elements = [] := by
  have h := (undo_restores L s0 (by rw [hh]; simpa using hn)).1
  rw [h0] at h
  exact h

/-- Claim C5 witness: two commits then two undos restore the empty list. -/
theorem C5_undo_exactness_amended_witness :
    ([[], []] : List (List LayoutElement)).length ≤ UNDO_HISTORY_LIMIT ∧
    (undoLast^[([[], []] : List (List LayoutElement)).length]
      (([[], []] : List (List LayoutElement)).foldl commitMutation initialEditorState)).elements
      = [] :=
  ⟨by norm_num [UNDO_HISTORY_LIMIT],
    C5_undo_exactness_amended _ _ rfl rfl (by norm_num [UNDO_HISTORY_LIMIT])⟩

/-- A concrete wall element used by several counterexamples. -/
def c5elem : LayoutElement :=
  { id := "w1", type := .wall, label := "Wall 1", width := 100, height := 1, left := 0,
    top := 0, angle := 0, fill := "#111111",
    geometry := some (.polyline [0, 0, 100, 0]), thicknessMm := none, materialName := none }

/-- One commit adding the concrete wall, for iterated counterexamples. -/
def c5commit (s : EditorState) : EditorState := commitMutation s [c5elem]

set_option maxRecDepth 40000 in
/-- Claim C5, counterexample: with N = 51 the bounded (50-entry) history
evicts the oldest snapshot, so 51 committing mutations followed by 51 undos
do not restore the initial empty list. -/
theorem C5_undo_exactness_counterexample :
    (undoLast^[51] (c5commit^[51] initialEditorState)).elements ≠ [] := by
  have h : (undoLast^[51] (c5commit^[51] initialEditorState)).elements = [c5elem] := by
    rfl
  rw [h]
  simp

/-! ### Claim C3: the opening snap distance threshold -/

/-- The distances from a point to its clamped projections onto the
non-degenerate segments of one path, in order. -/
def segDistances (point : Pt) : List Pt → List ℝ
  | a :: b :: rest =>
    (if distanceBetween a b = 0 then []
     else [(closestPointOnSegment point a b).distance]) ++ segDistances point (b :: rest)
  | _ => []

/-- All candidate snap distances `findSnapPointOnWalls` considers: for every
wall with a path of at least two points, the projection distances onto its
non-degenerate segments. -/
def snapCandidateDistances (point : Pt) (walls : List LayoutElement) : List ℝ :=
  walls.flatMap fun wall =>
    let path := getWallPathPoints wall
    if path.length < 2 then [] else segDistances point path

/-- The tracked best distance of the snap fold, with `none` (JS
`bestDistance = Infinity`) mapped to `⊤`. -/
def dOf (b : Option (SnapResult × ℝ)) : WithTop ℝ :=
  match b with
  | none => ⊤
  | some (_, bd) => (bd : WithTop ℝ)

/-- The minimum of a distance list in `WithTop ℝ` (`⊤` for the empty list). -/
def listMin (l : List ℝ) : WithTop ℝ := l.foldr (fun d acc => min (↑d) acc) ⊤

theorem listMin_nil : listMin [] = ⊤ := rfl

theorem listMin_cons (d : ℝ) (l : List ℝ) : listMin (d :: l) = min (↑d) (listMin l) := rfl

theorem listMin_append (l1 l2 : List ℝ) :
    listMin (l1 ++ l2) = min (listMin l1) (listMin l2) := by
  induction l1 with
  | nil => rw [List.nil_append, listMin_nil, min_eq_right le_top]
  | cons d rest ih =>
    rw [List.cons_append, listMin_cons, listMin_cons, ih, min_assoc]

theorem listMin_le_coe_iff (l : List ℝ) (c : ℝ) :
    listMin l ≤ (c : WithTop ℝ) ↔ ∃ d ∈ l, d ≤ c := by
  induction l with
  | nil =>
    rw [listMin_nil]
    constructor
    · intro h; exact absurd h (WithTop.not_top_le_coe c)
    · rintro ⟨d, hd, _⟩; exact absurd hd (by simp)
  | cons d rest ih =>
    rw [listMin_cons, min_le_iff]
    constructor
    · rintro (h | h)
      · exact ⟨d, List.mem_cons_self d rest, WithTop.coe_le_coe.mp h⟩
      · obtain ⟨d', hd', hle⟩ := ih.mp h
        exact ⟨d', List.mem_cons_of_mem d hd', hle⟩
    · rintro ⟨d', hd', hle⟩
      rcases List.mem_cons.mp hd' with rfl | hd'
      · exact Or.inl (WithTop.coe_le_coe.mpr hle)
      · exact Or.inr (ih.mpr ⟨d', hd', hle⟩)

/-- The candidate snap result built for one non-degenerate segment. -/
def snapCandidate (point : Pt) (wid : String) (path : List Pt) (total cum : ℝ)
    (a b : Pt) : SnapResult :=
  { point := (closestPointOnSegment point a b).closest
    angle := (closestPointOnSegment point a b).angle * 180 / Real.pi
    wallId := wid
    pathPoints := path
    pathLength := total
    distanceAlongPath := cum + (closestPointOnSegment point a b).t * distanceBetween a b }

theorem snapSegGo_cons₂ (point : Pt) (wid : String) (path : List Pt) (total cum : ℝ)
    (a b : Pt) (tail : List Pt) (best : Option (SnapResult × ℝ)) :
    snapSegGo point wid path total cum (a :: b :: tail) best =
      if distanceBetween a b = 0 then
        snapSegGo point wid path total cum (b :: tail) best
      else
        snapSegGo point wid path total (cum + distanceBetween a b) (b :: tail)
          (match best with
            | none =>
                some (snapCandidate point wid path total cum a b,
                  (closestPointOnSegment point a b).distance)
            | some (r, bd) =>
                if (closestPointOnSegment point a b).distance < bd then
                  some (snapCandidate point wid path total cum a b,
                    (closestPointOnSegment point a b).distance)
                else some (r, bd)) := rfl

theorem segDistances_cons₂ (point a b : Pt) (tail : List Pt) :
    segDistances point (a :: b :: tail) =
      (if distanceBetween a b = 0 then []
       else [(closestPointOnSegment point a b).distance]) ++ segDistances point (b :: tail) := rfl

theorem snapSegGo_dOf (point : Pt) (wid : String) (path : List Pt) (total : ℝ) :
    ∀ (pts : List Pt) (cum : ℝ) (best : Option (SnapResult × ℝ)),
      dOf (snapSegGo point wid path total cum pts best) =
        min (dOf best) (listMin (segDistances point pts)) := by
  intro pts
  induction pts with
  | nil =>
    intro cum best
    rw [show snapSegGo point wid path total cum [] best = best from rfl,
      show segDistances point [] = [] from rfl, listMin_nil, min_eq_left le_top]
  | cons a rest ih =>
    intro cum best
    cases rest with
    | nil =>
      rw [show snapSegGo point wid path total cum [a] best = best from rfl,
        show segDistances point [a] = [] from rfl, listMin_nil, min_eq_left le_top]
    | cons b tail =>
      rw [snapSegGo_cons₂, segDistances_cons₂]
      by_cases h0 : distanceBetween a b = 0
      · rw [if_pos h0, if_pos h0, ih cum best, List.nil_append]
      · rw [if_neg h0, if_neg h0, ih]
        have hbest : dOf (match best with
            | none =>
                some (snapCandidate point wid path total cum a b,
                  (closestPointOnSegment point a b).distance)
            | some (r, bd) =>
                if (closestPointOnSegment point a b).distance < bd then
                  some (snapCandidate point wid path total cum a b,
                    (closestPointOnSegment point a b).distance)
                else some (r, bd)) =
            min (dOf best) ((closestPointOnSegment point a b).distance : WithTop ℝ) := by
          cases best with
          | none =>
            have h1 : dOf (some (snapCandidate point wid path total cum a b,
                (closestPointOnSegment point a b).distance)) =
                ((closestPointOnSegment point a b).distance : WithTop ℝ) := rfl
            exact h1.trans (min_eq_right le_top).symm
          | some p =>
            obtain ⟨r, bd⟩ := p
            show dOf (if (closestPointOnSegment point a b).distance < bd then
                some (snapCandidate point wid path total cum a b,
                  (closestPointOnSegment point a b).distance)
              else some (r, bd)) = _
            by_cases hlt : (closestPointOnSegment point a b).distance < bd
            · rw [if_pos hlt]
              exact (rfl :
                dOf (some (snapCandidate point wid path total cum a b,
                  (closestPointOnSegment point a b).distance)) =
                ((closestPointOnSegment point a b).distance : WithTop ℝ)).trans
                (min_eq_right (WithTop.coe_le_coe.mpr hlt.le)).symm
            · rw [if_neg hlt]
              exact (rfl : dOf (some (r, bd)) = (bd : WithTop ℝ)).trans
                (min_eq_left (WithTop.coe_le_coe.mpr (not_lt.mp hlt))).symm
        rw [hbest, List.singleton_append, listMin_cons, min_assoc]

theorem snapFold_dOf (point : Pt) :
    ∀ (walls : List LayoutElement) (best : Option (SnapResult × ℝ)),
      dOf (walls.foldl
        (fun best wall =>
          let path := getWallPathPoints wall
          if path.length < 2 then best
          else snapSegGo point wall.id path (getPathLength path) 0 path best)
        best) =
      min (dOf best) (listMin (snapCandidateDistances point walls)) := by
  intro walls
  induction walls with
  | nil => intro best; simp [snapCandidateDistances, listMin, min_eq_left le_top]
  | cons w rest ih =>
    intro best
    rw [List.foldl_cons]
    have hflat : snapCandidateDistances point (w :: rest) =
        (if (getWallPathPoints w).length < 2 then []
         else segDistances point (getWallPathPoints w)) ++
          snapCandidateDistances point rest := by
      simp [snapCandidateDistances]
    rw [hflat, listMin_append]
    by_cases hlen : (getWallPathPoints w).length < 2
    · have hfw : (let path := getWallPathPoints w
          if path.length < 2 then best
          else snapSegGo point w.id path (getPathLength path) 0 path best) = best := by
        show (if (getWallPathPoints w).length < 2 then best
          else snapSegGo point w.id (getWallPathPoints w)
            (getPathLength (getWallPathPoints w)) 0 (getWallPathPoints w) best) = best
        rw [if_pos hlen]
      rw [hfw, ih, if_pos hlen, listMin_nil, min_eq_right le_top]
    · have hfw : (let path := getWallPathPoints w
          if path.length < 2 then best
          else snapSegGo point w.id path (getPathLength path) 0 path best) =
          snapSegGo point w.id (getWallPathPoints w)
            (getPathLength (getWallPathPoints w)) 0 (getWallPathPoints w) best := by
        show (if (getWallPathPoints w).length < 2 then best
          else snapSegGo point w.id (getWallPathPoints w)
            (getPathLength (getWallPathPoints w)) 0 (getWallPathPoints w) best) = _
        rw [if_neg hlen]
      rw [hfw, ih, snapSegGo_dOf, if_neg hlen, min_assoc]

/-- A concrete horizontal wall from (0,0) to (100,0) for the threshold
instances. -/
def c3wall : LayoutElement :=
  { id := "wall-1", type := .wall, label := "Wall 1", width := 100, height := 1, left := 0,
    top := 0, angle := 0, fill := "#111111",
    geometry := some (.polyline [0, 0, 100, 0]), thicknessMm := none, materialName := none }

theorem c3wall_path : getWallPathPoints c3wall = [Pt.mk 0 0, Pt.mk 100 0] := rfl

theorem c3_closest_distance (py : ℝ) :
    (closestPointOnSegment (Pt.mk 50 py) (Pt.mk 0 0) (Pt.mk 100 0)).distance = |py| := by
  unfold closestPointOnSegment
  simp only []
  norm_num
  rw [hypot_zero_left]

theorem c3_candidates (py : ℝ) :
    snapCandidateDistances (Pt.mk 50 py) [c3wall] = [|py|] := by
  have h100 : distanceBetween (Pt.mk 0 0) (Pt.mk 100 0) = 100 := by
    unfold distanceBetween
    simp only []
    norm_num [hypot_zero_right]
  simp only [snapCandidateDistances, List.flatMap_cons, List.flatMap_nil, c3wall_path]
  rw [if_neg (by norm_num)]
  unfold segDistances
  rw [if_neg (by rw [h100]; norm_num)]
  simp [segDistances, c3_closest_distance]

/-- Claim C3: `findSnapPointOnWalls` returns a result exactly when some
projection distance onto a non-degenerate sampled wall segment is within the
threshold `OPENING_SNAP_DISTANCE = 40`; in particular, for a horizontal wall
it snaps a point at distance 39.9 and returns `null` at distance 40.1. -/
theorem C3_snap_threshold :
    (∀ (point : Pt) (walls : List LayoutElement),
      (findSnapPointOnWalls point walls).isSome ↔
        ∃ d ∈ snapCandidateDistances point walls, d ≤ OPENING_SNAP_DISTANCE) ∧
    (findSnapPointOnWalls (Pt.mk 50 39.9) [c3wall]).isSome ∧
    findSnapPointOnWalls (Pt.mk 50 40.1) [c3wall] = none := by
  have heq : ∀ (point : Pt) (walls : List LayoutElement),
      findSnapPointOnWalls point walls =
        (match walls.foldl
            (fun best wall =>
              let path := getWallPathPoints wall
              if path.length < 2 then best
              else snapSegGo point wall.id path (getPathLength path) 0 path best)
            none with
          | none => none
          | some (r, bd) => if OPENING_SNAP_DISTANCE < bd then none else some r) :=
    fun _ _ => rfl
  have hmain : ∀ (point : Pt) (walls : List LayoutElement),
      (findSnapPointOnWalls point walls).isSome ↔
        ∃ d ∈ snapCandidateDistances point walls, d ≤ OPENING_SNAP_DISTANCE := by
    intro point walls
    have hfold := snapFold_dOf point walls none
    rw [show dOf none = ⊤ from rfl, min_eq_right le_top] at hfold
    rw [← listMin_le_coe_iff]
    cases hacc : walls.foldl
        (fun best wall =>
          let path := getWallPathPoints wall
          if path.length < 2 then best
          else snapSegGo point wall.id path (getPathLength path) 0 path best)
        none with
    | none =>
      rw [hacc] at hfold
      rw [show findSnapPointOnWalls point walls = none from by rw [heq, hacc]]
      simp only [Option.isSome_none, Bool.false_eq_true, false_iff]
      intro hle
      rw [← hfold] at hle
      exact absurd hle (by simp [dOf])
    | some p =>
      obtain ⟨r, bd⟩ := p
      rw [hacc] at hfold
      have hbd : (bd : WithTop ℝ) = listMin (snapCandidateDistances point walls) :=
        hfold
      rw [show findSnapPointOnWalls point walls =
        (if OPENING_SNAP_DISTANCE < bd then none else some r) from by rw [heq, hacc]]
      rw [← hbd, WithTop.coe_le_coe]
      by_cases hgt : OPENING_SNAP_DISTANCE < bd
      · rw [if_pos hgt]
        simp only [Option.isSome_none, Bool.false_eq_true, false_iff]
        exact not_le.mpr hgt
      · rw [if_neg hgt]
        simp only [Option.isSome_some, true_iff]
        exact not_lt.mp hgt
  refine ⟨hmain, ?_, ?_⟩
  · rw [hmain]
    refine ⟨|(39.9 : ℝ)|, ?_, ?_⟩
    · rw [c3_candidates]
      exact List.mem_singleton.mpr rfl
    · rw [abs_of_nonneg (by norm_num)]
      unfold OPENING_SNAP_DISTANCE
      norm_num
  · have h := hmain (Pt.mk 50 40.1) [c3wall]
    cases hval : findSnapPointOnWalls (Pt.mk 50 40.1) [c3wall] with
    | none => rfl
    | some r =>
      exfalso
      rw [hval] at h
      obtain ⟨d, hd, hle⟩ := h.mp (by simp)
      rw [c3_candidates] at hd
      rw [List.mem_singleton.mp hd, abs_of_nonneg (by norm_num)] at hle
      unfold OPENING_SNAP_DISTANCE at hle
      norm_num at hle

/-! ### Claim C1: cutting a single opening out of a straight wall -/

/-- The interpolation point `splitPathAtLength` constructs inside a segment. -/
def lerpPt (p0 p1 : Pt) (r : ℝ) : Pt :=
  ⟨p0.x + r * (p1.x - p0.x), p0.y + r * (p1.y - p0.y)⟩

theorem distanceBetween_lerp_left (p0 p1 : Pt) {r : ℝ} (h0 : 0 ≤ r) :
    distanceBetween p0 (lerpPt p0 p1 r) = r * distanceBetween p0 p1 := by
  unfold distanceBetween lerpPt
  simp only []
  rw [show p0.x + r * (p1.x - p0.x) - p0.x = r * (p1.x - p0.x) by ring,
    show p0.y + r * (p1.y - p0.y) - p0.y = r * (p1.y - p0.y) by ring,
    hypot_mul, abs_of_nonneg h0]

theorem distanceBetween_lerp_right (p0 p1 : Pt) {r : ℝ} (h1 : r ≤ 1) :
    distanceBetween (lerpPt p0 p1 r) p1 = (1 - r) * distanceBetween p0 p1 := by
  unfold distanceBetween lerpPt
  simp only []
  rw [show p1.x - (p0.x + r * (p1.x - p0.x)) = (1 - r) * (p1.x - p0.x) by ring,
    show p1.y - (p0.y + r * (p1.y - p0.y)) = (1 - r) * (p1.y - p0.y) by ring,
    hypot_mul, abs_of_nonneg (by linarith)]

theorem lerpPt_ne_left (p0 p1 : Pt) {r : ℝ} (hr : r ≠ 0)
    (hne : distanceBetween p0 p1 ≠ 0) :
    ¬((lerpPt p0 p1 r).x = p0.x ∧ (lerpPt p0 p1 r).y = p0.y) := by
  rintro ⟨hx, hy⟩
  unfold lerpPt at hx hy
  simp only [] at hx hy
  have hdx : p1.x - p0.x = 0 := by
    rcases mul_eq_zero.mp (show r * (p1.x - p0.x) = 0 by linarith) with h | h
    · exact absurd h hr
    · exact h
  have hdy : p1.y - p0.y = 0 := by
    rcases mul_eq_zero.mp (show r * (p1.y - p0.y) = 0 by linarith) with h | h
    · exact absurd h hr
    · exact h
  exact hne (distanceBetween_eq_zero_iff.mpr (Pt.ext_iff_xy.mpr ⟨by linarith, by linarith⟩))

theorem lerpPt_ne_right (p0 p1 : Pt) {r : ℝ} (hr : r ≠ 1)
    (hne : distanceBetween p0 p1 ≠ 0) :
    ¬(p1.x = (lerpPt p0 p1 r).x ∧ p1.y = (lerpPt p0 p1 r).y) := by
  rintro ⟨hx, hy⟩
  unfold lerpPt at hx hy
  simp only [] at hx hy
  have hdx : p1.x - p0.x = 0 := by
    have h : (1 - r) * (p1.x - p0.x) = 0 := by linarith
    rcases mul_eq_zero.mp h with h' | h'
    · exact absurd (by linarith : r = 1) hr
    · exact h'
  have hdy : p1.y - p0.y = 0 := by
    have h : (1 - r) * (p1.y - p0.y) = 0 := by linarith
    rcases mul_eq_zero.mp h with h' | h'
    · exact absurd (by linarith : r = 1) hr
    · exact h'
  exact hne (distanceBetween_eq_zero_iff.mpr (Pt.ext_iff_xy.mpr ⟨by linarith, by linarith⟩))

theorem splitGo_nil (start : Pt) (pref : List Pt) (remaining : ℝ) :
    splitGo start [] pref remaining = none := rfl

theorem splitGo_cons (start next : Pt) (tail pref : List Pt) (remaining : ℝ) :
    splitGo start (next :: tail) pref remaining =
      if distanceBetween start next = 0 then splitGo next tail pref remaining
      else if remaining < distanceBetween start next then
        some (((lerpPt start next (remaining / distanceBetween start next)) :: pref).reverse,
          lerpPt start next (remaining / distanceBetween start next) :: next :: tail)
      else if remaining = distanceBetween start next then
        some ((next :: pref).reverse, next :: tail)
      else splitGo next tail (next :: pref) (remaining - distanceBetween start next) := rfl

theorem splitPathAtLength_cons (p : Pt) (rest : List Pt) (target : ℝ) :
    splitPathAtLength (p :: rest) target =
      if target ≤ 0 then ([p], p :: rest)
      else
        match splitGo p rest [p] target with
        | some result => result
        | none => (p :: rest, [List.getLastD rest p]) := rfl

theorem splitPathAtLength_two_mid (p0 p1 : Pt) {s : ℝ} (h0 : 0 < s)
    (h1 : s < distanceBetween p0 p1) :
    splitPathAtLength [p0, p1] s =
      ([p0, lerpPt p0 p1 (s / distanceBetween p0 p1)],
       [lerpPt p0 p1 (s / distanceBetween p0 p1), p1]) := by
  rw [splitPathAtLength_cons, if_neg (not_le.mpr h0), splitGo_cons,
    if_neg (by linarith : ¬distanceBetween p0 p1 = 0), if_pos h1]
  rfl

theorem splitPathAtLength_two_fin (p0 p1 : Pt) (h0 : 0 < distanceBetween p0 p1) :
    splitPathAtLength [p0, p1] (distanceBetween p0 p1) = ([p0, p1], [p1]) := by
  rw [splitPathAtLength_cons, if_neg (not_le.mpr h0), splitGo_cons,
    if_neg (by linarith : ¬distanceBetween p0 p1 = 0), if_neg (lt_irrefl _), if_pos rfl]
  rfl

theorem getPathLength_pair (a b : Pt) : getPathLength [a, b] = distanceBetween a b := by
  rw [show getPathLength [a, b] = distanceBetween a b + getPathLength [b] from rfl,
    show getPathLength [b] = 0 from rfl, add_zero]

theorem extractPathSection_eq (points : List Pt) (start fin : ℝ) :
    extractPathSection points start fin =
      if fin ≤ start then []
      else (splitPathAtLength (splitPathAtLength points start).2 (fin - start)).1 := rfl

theorem normalizePath_pair (p q : Pt) (hne : ¬(q.x = p.x ∧ q.y = p.y)) :
    normalizePath [p, q] = [p, q] := by
  rw [show normalizePath [p, q] = p :: normGo p [q] from rfl,
    show normGo p [q] = if q.x = p.x ∧ q.y = p.y then normGo p [] else q :: normGo q [] from rfl,
    if_neg hne,
    show normGo q [] = [] from rfl]

theorem extract_two_head (p0 p1 : Pt) {e : ℝ} (h0 : 0 < e)
    (he : e < distanceBetween p0 p1) :
    extractPathSection [p0, p1] 0 e = [p0, lerpPt p0 p1 (e / distanceBetween p0 p1)] := by
  rw [extractPathSection_eq, if_neg (by linarith : ¬(e ≤ 0)),
    show splitPathAtLength [p0, p1] 0 = ([p0], [p0, p1]) from by
      rw [splitPathAtLength_cons, if_pos le_rfl],
    sub_zero]
  rw [splitPathAtLength_two_mid p0 p1 h0 he]

theorem extract_two_tail (p0 p1 : Pt) {a : ℝ} (h0 : 0 < a)
    (ha : a < distanceBetween p0 p1) :
    extractPathSection [p0, p1] a (distanceBetween p0 p1) =
      [lerpPt p0 p1 (a / distanceBetween p0 p1), p1] := by
  have hL : (0 : ℝ) < distanceBetween p0 p1 := lt_trans h0 ha
  have hrem : distanceBetween (lerpPt p0 p1 (a / distanceBetween p0 p1)) p1 =
      distanceBetween p0 p1 - a := by
    rw [distanceBetween_lerp_right p0 p1 (by rw [div_le_one hL]; linarith)]
    field_simp
  rw [extractPathSection_eq, if_neg (by linarith : ¬(distanceBetween p0 p1 ≤ a)),
    splitPathAtLength_two_mid p0 p1 h0 ha]
  show (splitPathAtLength [lerpPt p0 p1 (a / distanceBetween p0 p1), p1] _).1 = _
  rw [show distanceBetween p0 p1 - a =
      distanceBetween (lerpPt p0 p1 (a / distanceBetween p0 p1)) p1 from hrem.symm,
    splitPathAtLength_two_fin _ _ (by rw [hrem]; linarith)]

theorem subtractGo_nil_eq (points : List Pt) (totalLength cursor : ℝ) :
    subtractGo points totalLength cursor [] =
      if cursor < totalLength then
        if 2 ≤ (extractPathSection points cursor totalLength).length then
          [normalizePath (extractPathSection points cursor totalLength)]
        else []
      else [] := by
  rw [subtractGo]

theorem subtractGo_cons_eq (points : List Pt) (totalLength cursor : ℝ)
    (iv : CutInterval) (rest : List CutInterval) :
    subtractGo points totalLength cursor (iv :: rest) =
      (if cursor < iv.start then
        if 2 ≤ (extractPathSection points cursor iv.start).length then
          [normalizePath (extractPathSection points cursor iv.start)]
        else []
      else []) ++ subtractGo points totalLength (max cursor iv.stop) rest := by
  rw [subtractGo]

theorem subtractIntervalsFromPath_eq (points : List Pt) (intervals : List CutInterval) :
    subtractIntervalsFromPath points intervals =
      if intervals = [] then [normalizePath points]
      else if getPathLength points = 0 then []
      else subtractGo points (getPathLength points) 0
        (((intervals.map (fun i =>
            CutInterval.mk (max 0 (min i.start (getPathLength points)))
              (max 0 (min i.stop (getPathLength points))))).filter
          (fun i => decide (i.start < i.stop))).mergeSort
            (fun a b => decide (a.start ≤ b.start))) := rfl

theorem mergeSort_singleton {α : Type} (a : α) (le : α → α → Bool) :
    [a].mergeSort le = [a] := by
  simp [List.mergeSort]

/-- Cutting one in-range interval `[a, b]` out of the straight two-point path
`[p0, p1]` yields the explicit head and tail sections. -/
theorem subtract_single_on_two (p0 p1 : Pt) {a b : ℝ} (h0 : 0 ≤ a) (hab : a < b)
    (hbL : b ≤ distanceBetween p0 p1) :
    subtractIntervalsFromPath [p0, p1] [⟨a, b⟩] =
      (if 0 < a then [[p0, lerpPt p0 p1 (a / distanceBetween p0 p1)]] else []) ++
      (if b < distanceBetween p0 p1 then
        [[lerpPt p0 p1 (b / distanceBetween p0 p1), p1]] else []) := by
  have hL : (0 : ℝ) < distanceBetween p0 p1 := by linarith
  have hLne : distanceBetween p0 p1 ≠ 0 := ne_of_gt hL
  have hpl : getPathLength [p0, p1] = distanceBetween p0 p1 := getPathLength_pair p0 p1
  rw [subtractIntervalsFromPath_eq, if_neg (by simp), if_neg (by rw [hpl]; exact hLne)]
  have hmap : ([(⟨a, b⟩ : CutInterval)].map (fun i =>
      CutInterval.mk (max 0 (min i.start (getPathLength [p0, p1])))
        (max 0 (min i.stop (getPathLength [p0, p1]))))) = [⟨a, b⟩] := by
    rw [List.map_singleton]
    congr 1
    · show CutInterval.mk (max 0 (min a (getPathLength [p0, p1])))
        (max 0 (min b (getPathLength [p0, p1]))) = CutInterval.mk a b
      rw [hpl, min_eq_left (by linarith), min_eq_left hbL, max_eq_right h0,
        max_eq_right (by linarith)]
  rw [hmap, show ([(⟨a, b⟩ : CutInterval)].filter (fun i => decide (i.start < i.stop))) =
      [⟨a, b⟩] from by simp [List.filter, hab], mergeSort_singleton, subtractGo_cons_eq,
    subtractGo_nil_eq]
  have hstop : max (0 : ℝ) b = b := max_eq_right (by linarith)
  have hbne1 : b / distanceBetween p0 p1 ≠ 1 → True := fun _ => trivial
  rw [hpl,
    show CutInterval.start (⟨a, b⟩ : CutInterval) = a from rfl,
    show CutInterval.stop (⟨a, b⟩ : CutInterval) = b from rfl, hstop]
  by_cases hα : 0 < a <;> by_cases hβ : b < distanceBetween p0 p1
  · conv_rhs => rw [if_pos hα, if_pos hβ]
    rw [if_pos hα, extract_two_head p0 p1 hα (by linarith), if_pos (by norm_num),
      normalizePath_pair _ _ (lerpPt_ne_left p0 p1 (by positivity) hLne),
      if_pos hβ, extract_two_tail p0 p1 (by linarith) hβ, if_pos (by norm_num),
      normalizePath_pair _ _ (lerpPt_ne_right p0 p1 (by
        intro hcontra
        rw [div_eq_one_iff_eq hLne] at hcontra
        linarith) hLne)]
  · conv_rhs => rw [if_pos hα, if_neg hβ]
    rw [if_pos hα, extract_two_head p0 p1 hα (by linarith), if_pos (by norm_num),
      normalizePath_pair _ _ (lerpPt_ne_left p0 p1 (by positivity) hLne),
      if_neg hβ]
  · conv_rhs => rw [if_neg hα, if_pos hβ]
    rw [if_neg hα, if_pos hβ, extract_two_tail p0 p1 (by linarith) hβ,
      if_pos (by norm_num),
      normalizePath_pair _ _ (lerpPt_ne_right p0 p1 (by
        intro hcontra
        rw [div_eq_one_iff_eq hLne] at hcontra
        linarith) hLne)]
  · conv_rhs => rw [if_neg hα, if_neg hβ]
    rw [if_neg hα, if_neg hβ]

/-- Claim C1: for a straight wall `[p0, p1]` of length `L` with one opening of
width `w` centered at `d` whose interval lies inside `[0, L]`, the cut yields
sub-paths of combined length exactly `L - w`; there are exactly two of them
when the interval is strictly inside, and exactly one when it touches exactly
one end of the path. -/
theorem C1_opening_cut (p0 p1 : Pt) (d w : ℝ) (hw : 0 < w)
    (hlo : 0 ≤ d - w / 2) (hhi : d + w / 2 ≤ distanceBetween p0 p1) :
    (((subtractIntervalsFromPath [p0, p1] [⟨d - w / 2, d + w / 2⟩]).map getPathLength).sum
        = distanceBetween p0 p1 - w) ∧
    (0 < d - w / 2 → d + w / 2 < distanceBetween p0 p1 →
      (subtractIntervalsFromPath [p0, p1] [⟨d - w / 2, d + w / 2⟩]).length = 2) ∧
    (d - w / 2 = 0 → d + w / 2 < distanceBetween p0 p1 →
      (subtractIntervalsFromPath [p0, p1] [⟨d - w / 2, d + w / 2⟩]).length = 1) ∧
    (0 < d - w / 2 → d + w / 2 = distanceBetween p0 p1 →
      (subtractIntervalsFromPath [p0, p1] [⟨d - w / 2, d + w / 2⟩]).length = 1) := by
  have hab : d - w / 2 < d + w / 2 := by linarith
  have hL : (0 : ℝ) < distanceBetween p0 p1 := by linarith
  have hLne : distanceBetween p0 p1 ≠ 0 := ne_of_gt hL
  have hmaster := subtract_single_on_two p0 p1 hlo hab hhi
  have hhead : getPathLength [p0, lerpPt p0 p1 ((d - w / 2) / distanceBetween p0 p1)]
      = d - w / 2 := by
    rw [getPathLength_pair, distanceBetween_lerp_left p0 p1 (by positivity)]
    field_simp
    ring
  have htail : getPathLength [lerpPt p0 p1 ((d + w / 2) / distanceBetween p0 p1), p1]
      = distanceBetween p0 p1 - (d + w / 2) := by
    rw [getPathLength_pair,
      distanceBetween_lerp_right p0 p1 (by rw [div_le_one hL]; linarith)]
    field_simp
    ring
  refine ⟨?_, ?_, ?_, ?_⟩
  · rw [hmaster]
    by_cases hα : 0 < d - w / 2 <;> by_cases hβ : d + w / 2 < distanceBetween p0 p1
    · rw [if_pos hα, if_pos hβ]
      simp only [List.singleton_append, List.map_cons, List.map_nil, List.sum_cons,
        List.sum_nil]
      rw [hhead, htail]
      ring
    · rw [if_pos hα, if_neg hβ]
      have hβ' : d + w / 2 = distanceBetween p0 p1 := le_antisymm hhi (not_lt.mp hβ)
      simp only [List.append_nil, List.map_cons, List.map_nil, List.sum_cons, List.sum_nil]
      rw [hhead]
      linarith
    · have hα' : d - w / 2 = 0 := le_antisymm (not_lt.mp hα) hlo
      rw [if_neg hα, if_pos hβ]
      simp only [List.nil_append, List.map_cons, List.map_nil, List.sum_cons, List.sum_nil]
      rw [htail]
      linarith
    · have hα' : d - w / 2 = 0 := le_antisymm (not_lt.mp hα) hlo
      have hβ' : d + w / 2 = distanceBetween p0 p1 := le_antisymm hhi (not_lt.mp hβ)
      rw [if_neg hα, if_neg hβ]
      simp only [List.append_nil, List.map_nil, List.sum_nil]
      linarith
  · intro hα hβ
    rw [hmaster, if_pos hα, if_pos hβ]
    rfl
  · intro hα hβ
    rw [hmaster, if_neg (by rw [hα]; exact lt_irrefl 0), if_pos hβ]
    rfl
  · intro hα hβ
    rw [hmaster, if_pos hα, if_neg (by rw [hβ]; exact lt_irrefl _)]
    rfl

/-- Claim C1 witness: a 10-unit wall with a width-4 opening centered at 5
yields two sub-paths of combined length 6. -/
theorem C1_opening_cut_witness :
    ((subtractIntervalsFromPath [Pt.mk 0 0, Pt.mk 10 0]
        [⟨5 - 4 / 2, 5 + 4 / 2⟩]).map getPathLength).sum
      = distanceBetween (Pt.mk 0 0) (Pt.mk 10 0) - 4 ∧
    (subtractIntervalsFromPath [Pt.mk 0 0, Pt.mk 10 0]
        [⟨5 - 4 / 2, 5 + 4 / 2⟩]).length = 2 := by
  have hd : distanceBetween (Pt.mk 0 0) (Pt.mk 10 0) = 10 := by
    unfold distanceBetween
    simp only []
    norm_num [hypot_zero_right]
  exact ⟨(C1_opening_cut (Pt.mk 0 0) (Pt.mk 10 0) 5 4 (by norm_num) (by norm_num)
      (by rw [hd]; norm_num)).1,
    (C1_opening_cut (Pt.mk 0 0) (Pt.mk 10 0) 5 4 (by norm_num) (by norm_num)
      (by rw [hd]; norm_num)).2.1 (by norm_num) (by rw [hd]; norm_num)⟩

/-! ### Claim C7: non-positive thickness and width are clamped, not skipped -/

theorem processWallSegment_shapes_length (refs : List WallSnapRef)
    (element : LayoutElement) (sw : ℝ) (oc fc : String) (acc : MeshAcc)
    (segment : List Pt) :
    (processWallSegment refs element sw oc fc acc segment).shapes.length =
      acc.shapes.length + 1 := by
  unfold processWallSegment
  dsimp only
  split
  · simp
  · simp

theorem foldl_processWallSegment_length (refs : List WallSnapRef)
    (element : LayoutElement) (sw : ℝ) (oc fc : String) :
    ∀ (segs : List (List Pt)) (acc : MeshAcc),
      ((segs.foldl (processWallSegment refs element sw oc fc) acc).shapes.length) =
        acc.shapes.length + segs.length := by
  intro segs
  induction segs with
  | nil => intro acc; simp
  | cons s rest ih =>
    intro acc
    rw [List.foldl_cons, ih, processWallSegment_shapes_length, List.length_cons]
    omega

theorem wallShapesStep_wall_length (refs : List WallSnapRef) (sel : Option String)
    (wtmm : ℝ) (cuts : String → List CutInterval) (acc : MeshAcc)
    (element : LayoutElement) (g : LayoutGeometry)
    (htype : element.type = .wall) (hg : element.geometry = some g)
    (hop : ¬g.isOpening) (hlen : ¬(getWallPathPoints element).length < 2) :
    (wallShapesStep refs sel wtmm cuts acc element).shapes.length =
      acc.shapes.length +
        (subtractIntervalsFromPath (getWallPathPoints element) (cuts element.id)).length := by
  unfold wallShapesStep
  rw [hg]
  show (if element.type ≠ .wall ∨ g.isOpening then acc
    else
      if (getWallPathPoints element).length < 2 then acc
      else
        (subtractIntervalsFromPath (getWallPathPoints element) (cuts element.id)).foldl
          (processWallSegment refs element (mmToPx (element.thicknessMm.getD wtmm))
            (if sel = some element.id then "#4f46e5" else "#000000") element.fill)
          acc).shapes.length = _
  rw [if_neg (by
      rintro (h | h)
      · exact h htype
      · exact hop h),
    if_neg hlen, foldl_processWallSegment_length]

/-- Claim C7, amended: non-positive dimensions never produce degenerate
geometry or an error, but they are clamped rather than skipped: `mmToPx`
clamps any non-positive wall thickness to the 4-pixel minimum and the wall
still contributes exactly one shape per visible sub-path; an opening whose
clamped cut interval is degenerate (as happens for non-positive width) is
discarded by the interval filter of `subtractIntervalsFromPath`, leaving the
wall uncut. -/
theorem C7_degenerate_clamped_amended :
    (∀ mm : ℝ, mm ≤ 0 → mmToPx mm = 4) ∧
    (∀ (refs : List WallSnapRef) (sel : Option String) (wtmm : ℝ)
        (cuts : String → List CutInterval) (acc : MeshAcc) (element : LayoutElement)
        (g : LayoutGeometry) (t : ℝ),
      element.type = .wall → element.geometry = some g → ¬g.isOpening →
      element.thicknessMm = some t → t ≤ 0 →
      ¬(getWallPathPoints element).length < 2 →
      mmToPx (element.thicknessMm.getD wtmm) = 4 ∧
      (wallShapesStep refs sel wtmm cuts acc element).shapes.length =
        acc.shapes.length +
          (subtractIntervalsFromPath (getWallPathPoints element) (cuts element.id)).length) ∧
    (∀ (L : ℝ) (ivs : List CutInterval), (∀ iv ∈ ivs, iv.stop ≤ iv.start) →
      (ivs.map (fun i =>
        CutInterval.mk (max 0 (min i.start L)) (max 0 (min i.stop L)))).filter
          (fun i => decide (i.start < i.stop)) = []) := by
  have hclamp : ∀ mm : ℝ, mm ≤ 0 → mmToPx mm = 4 := by
    intro mm h
    unfold mmToPx
    rw [max_eq_left (by linarith)]
  refine ⟨hclamp, ?_, ?_⟩
  · intro refs sel wtmm cuts acc element g t htype hg hop ht htle hlen
    refine ⟨?_, wallShapesStep_wall_length refs sel wtmm cuts acc element g htype hg hop hlen⟩
    rw [ht]
    exact hclamp t htle
  · intro L ivs hall
    induction ivs with
    | nil => simp
    | cons iv rest ih =>
      rw [List.map_cons, List.filter_cons]
      rw [if_neg (by
        simp only [decide_eq_true_eq]
        have hle : iv.stop ≤ iv.start := hall iv (List.mem_cons_self iv rest)
        have h1 : min iv.stop L ≤ min iv.start L := min_le_min_right L hle
        have h2 : max 0 (min iv.stop L) ≤ max 0 (min iv.start L) :=
          max_le_max (le_refl 0) h1
        exact not_lt.mpr h2)]
      exact ih (fun x hx => hall x (List.mem_cons_of_mem iv hx))

/-- A wall with thickness 0 mm: the claim says it should contribute nothing. -/
def c7wall : LayoutElement :=
  { id := "w7", type := .wall, label := "Wall 1", width := 100, height := 1, left := 0,
    top := 0, angle := 0, fill := "#5b5b63",
    geometry := some (.polyline [0, 0, 100, 0]), thicknessMm := some 0,
    materialName := none }

/-- Claim C7, counterexample: a wall with non-positive (zero) `thicknessMm`
still contributes a rendered shape — it is clamped to the 4px minimum,
not silently skipped. -/
theorem C7_degenerate_counterexample : (wallShapes [c7wall] none 200).shapes ≠ [] := by
  have hcuts : openingCutIntervals [c7wall] (c7wall.id) = [] := by
    simp [openingCutIntervals, c7wall]
  have hlen1 : (wallShapes [c7wall] none 200).shapes.length = 1 := by
    show ((wallShapesStep (wallSnapRefs [c7wall]) none 200 (openingCutIntervals [c7wall])
      (⟨[], [], []⟩ : MeshAcc) c7wall).shapes.length) = 1
    rw [wallShapesStep_wall_length _ _ _ _ _ _ (.polyline [0, 0, 100, 0]) rfl rfl
      (by simp [LayoutGeometry.isOpening]) (by norm_num [c7wall, getWallPathPoints, toPointPairs])]
    rw [hcuts, subtractIntervalsFromPath_eq, if_pos rfl]
    rfl
  intro hnil
  rw [hnil] at hlen1
  simp at hlen1

/-- Claim C7 witness: the amended statement at concrete inputs — thickness
-100mm clamps to 4px, the zero-thickness wall contributes one shape, and a
degenerate opening interval is filtered out. -/
theorem C7_degenerate_clamped_amended_witness :
    mmToPx (-100) = 4 ∧
    (mmToPx (c7wall.thicknessMm.getD 200) = 4 ∧
      (wallShapesStep [] none 200 (fun _ => []) (⟨[], [], []⟩ : MeshAcc) c7wall).shapes.length =
        ([] : List WallShape).length +
          (subtractIntervalsFromPath (getWallPathPoints c7wall) ((fun _ => []) c7wall.id)).length) ∧
    (([⟨5, 5⟩] : List CutInterval).map (fun i =>
      CutInterval.mk (max 0 (min i.start 100)) (max 0 (min i.stop 100)))).filter
        (fun i => decide (i.start < i.stop)) = [] :=
  ⟨C7_degenerate_clamped_amended.1 (-100) (by norm_num),
    C7_degenerate_clamped_amended.2.1 [] none 200 (fun _ => []) ⟨[], [], []⟩ c7wall
      (.polyline [0, 0, 100, 0]) 0 rfl rfl (by simp [LayoutGeometry.isOpening]) rfl
      (by norm_num) (by norm_num [c7wall, getWallPathPoints, toPointPairs]),
    C7_degenerate_clamped_amended.2.2 100 [⟨5, 5⟩]
      (by intro iv hiv; rw [List.mem_singleton.mp hiv])⟩

/-! ### Claim C2: free and connected edge extension in the mesh builder -/

theorem distanceBetween_mk (a b c d : ℝ) :
    distanceBetween (Pt.mk a b) (Pt.mk c d) = hypot (c - a) (d - b) := rfl

/-- A horizontal wall from (0,0) to (100,0), 200mm thick. Its end at (100,0)
adjoins wall "b"; its end at (0,0) is free. -/
def c2wallA : LayoutElement :=
  { id := "a", type := .wall, label := "Wall 1", width := 100, height := 1, left := 0,
    top := 0, angle := 0, fill := "#5b5b63",
    geometry := some (.polyline [0, 0, 100, 0]), thicknessMm := some 200,
    materialName := none }

/-- The snap refs of a perpendicular wall "b" from (100,0) to (100,100). -/
def c2refs : List WallSnapRef :=
  [⟨"b", Pt.mk 100 0⟩, ⟨"b", Pt.mk 100 100⟩]

/-- Claim C2, failing run: for the wall above, the start at (0,0) is a free
edge and the end at (100,0) is a connected edge, yet the mesh builder leaves
the free end unextended and extends the connected end by half the thickness
(to x = 110): the polygon spans x ∈ [0, 110], not x ∈ [-10, 100] as the claim
requires. The `extendStart := startConnected` flags are inverted relative to
the specification. -/
theorem C2_extension_codebug :
    mmToPx 200 = 20 ∧
    (c2refs.any fun ref =>
      decide (ref.wallId ≠ c2wallA.id ∧
        distanceBetween ref.point ([Pt.mk 0 0, Pt.mk 100 0].headD ⟨0, 0⟩) ≤
          WALL_CONNECTION_TOLERANCE / 2)) = false ∧
    (c2refs.any fun ref =>
      decide (ref.wallId ≠ c2wallA.id ∧
        distanceBetween ref.point ([Pt.mk 0 0, Pt.mk 100 0].getLastD ⟨0, 0⟩) ≤
          WALL_CONNECTION_TOLERANCE / 2)) = true ∧
    extendOpenPath [Pt.mk 0 0, Pt.mk 100 0] (mmToPx 200 / 2) false true =
      [Pt.mk 0 0, Pt.mk 110 0] ∧
    (processWallSegment c2refs c2wallA (mmToPx 200) "#000000" "#5b5b63"
        ⟨[], [], []⟩ [Pt.mk 0 0, Pt.mk 100 0]).shapes =
      [.polygonShape (flattenPoints
        ([Pt.mk 0 10, Pt.mk 110 10, Pt.mk 110 (-10), Pt.mk 0 (-10)] ++ [Pt.mk 0 10]))
        "#5b5b63"] := by
  have h20 : mmToPx 200 = 20 := by unfold mmToPx; norm_num
  have hstart : (c2refs.any fun ref =>
      decide (ref.wallId ≠ c2wallA.id ∧
        distanceBetween ref.point ([Pt.mk 0 0, Pt.mk 100 0].headD ⟨0, 0⟩) ≤
          WALL_CONNECTION_TOLERANCE / 2)) = false := by
    simp only [c2refs, List.any_cons, List.any_nil, Bool.or_false,
      Bool.or_eq_false_iff, decide_eq_false_iff_not]
    constructor
    · rintro ⟨_, hle⟩
      rw [show [Pt.mk 0 0, Pt.mk 100 0].headD (⟨0, 0⟩ : Pt) = Pt.mk 0 0 from rfl,
        distanceBetween_mk, WALL_CONNECTION_TOLERANCE,
        hypot_le_iff (by norm_num)] at hle
      norm_num at hle
    · rintro ⟨_, hle⟩
      rw [show [Pt.mk 0 0, Pt.mk 100 0].headD (⟨0, 0⟩ : Pt) = Pt.mk 0 0 from rfl,
        distanceBetween_mk, WALL_CONNECTION_TOLERANCE,
        hypot_le_iff (by norm_num)] at hle
      norm_num at hle
  have hend : (c2refs.any fun ref =>
      decide (ref.wallId ≠ c2wallA.id ∧
        distanceBetween ref.point ([Pt.mk 0 0, Pt.mk 100 0].getLastD ⟨0, 0⟩) ≤
          WALL_CONNECTION_TOLERANCE / 2)) = true := by
    simp only [c2refs, List.any_cons, List.any_nil, Bool.or_false, Bool.or_eq_true,
      decide_eq_true_eq]
    left
    refine ⟨by simp [c2wallA], ?_⟩
    rw [show [Pt.mk 0 0, Pt.mk 100 0].getLastD (⟨0, 0⟩ : Pt) = Pt.mk 100 0 from rfl,
      distanceBetween_mk, WALL_CONNECTION_TOLERANCE, hypot_le_iff (by norm_num)]
    norm_num
  have hnv110 : normalizeVector (110 - 0) (0 - 0) = Pt.mk 1 0 := by
    unfold normalizeVector
    rw [if_neg (by rw [hypot_eq_zero_iff]; norm_num)]
    rw [Pt.ext_iff_xy]
    norm_num [hypot_zero_right]
  have hnv100 : normalizeVector (100 - 0) (0 - 0) = Pt.mk 1 0 := by
    unfold normalizeVector
    rw [if_neg (by rw [hypot_eq_zero_iff]; norm_num)]
    rw [Pt.ext_iff_xy]
    norm_num [hypot_zero_right]
  have hext : extendOpenPath [Pt.mk 0 0, Pt.mk 100 0] (mmToPx 200 / 2) false true =
      [Pt.mk 0 0, Pt.mk 110 0] := by
    rw [h20]
    unfold extendOpenPath
    rw [if_neg (show ¬((20 : ℝ) / 2 ≤ 0 ∨
        ([Pt.mk 0 0, Pt.mk 100 0] : List Pt).length < 2) by norm_num)]
    rw [if_neg (show ¬(distanceBetween ([Pt.mk 0 0, Pt.mk 100 0].headD ⟨0, 0⟩)
        ([Pt.mk 0 0, Pt.mk 100 0].getLastD ⟨0, 0⟩) < 0.5) by
      rw [show [Pt.mk 0 0, Pt.mk 100 0].headD (⟨0, 0⟩ : Pt) = Pt.mk 0 0 from rfl,
        show [Pt.mk 0 0, Pt.mk 100 0].getLastD (⟨0, 0⟩ : Pt) = Pt.mk 100 0 from rfl,
        distanceBetween_mk, hypot_lt_iff (by norm_num)]
      norm_num)]
    rw [if_neg (show ¬(¬(false = true) ∧ ¬(true = true)) by simp)]
    rw [if_neg (show ¬(false = true) by simp)]
    rw [if_pos (show (true = true) from rfl)]
    rw [show ([Pt.mk 0 0, Pt.mk 100 0] : List Pt).length - 1 = 1 from rfl]
    dsimp only
    rw [show ptAt [Pt.mk 0 0, Pt.mk 100 0] 1 = Pt.mk 100 0 from rfl,
      show ptAt [Pt.mk 0 0, Pt.mk 100 0] (1 - 1) = Pt.mk 0 0 from rfl]
    dsimp only
    rw [hnv100]
    dsimp only
    rw [show ([Pt.mk 0 0, Pt.mk 100 0].set 1
      (⟨100 + 1 * (20 / 2), 0 + 0 * (20 / 2)⟩ : Pt) : List Pt) =
      [Pt.mk 0 0, ⟨100 + 1 * (20 / 2), 0 + 0 * (20 / 2)⟩] from rfl]
    rw [show (⟨100 + 1 * (20 / 2), 0 + 0 * (20 / 2)⟩ : Pt) = Pt.mk 110 0 from by
      rw [Pt.ext_iff_xy]; constructor <;> norm_num]
  have hpoly : buildSegmentPolygon (Pt.mk 0 0) (Pt.mk 110 0) (mmToPx 200) =
      [Pt.mk 0 10, Pt.mk 110 10, Pt.mk 110 (-10), Pt.mk 0 (-10)] := by
    rw [h20]
    unfold buildSegmentPolygon
    dsimp only
    rw [hnv110]
    dsimp only
    simp only [List.cons.injEq, Pt.ext_iff_xy]
    norm_num
  refine ⟨h20, hstart, hend, hext, ?_⟩
  unfold processWallSegment
  dsimp only
  rw [hstart, hend, hext]
  rw [if_pos (show ([Pt.mk 0 0, Pt.mk 110 0] : List Pt).length = 2 by rfl)]
  rw [show ptAt [Pt.mk 0 0, Pt.mk 110 0] 0 = Pt.mk 0 0 from rfl,
    show ptAt [Pt.mk 0 0, Pt.mk 110 0] 1 = Pt.mk 110 0 from rfl, hpoly]
  rfl

/-! ### Claim C4: atomic opening snap commit / rejection -/

theorem snapSegGo_wallId (point : Pt) (wid : String) (path : List Pt) (total : ℝ) :
    ∀ (pts : List Pt) (cum : ℝ) (best : Option (SnapResult × ℝ)) (r : SnapResult) (bd : ℝ),
      snapSegGo point wid path total cum pts best = some (r, bd) →
      r.wallId = wid ∨ ∃ r0 bd0, best = some (r0, bd0) ∧ r.wallId = r0.wallId := by
  intro pts
  induction pts with
  | nil =>
    intro cum best r bd h
    exact Or.inr ⟨r, bd, h.symm ▸ rfl, rfl⟩
  | cons a rest ih =>
    intro cum best r bd h
    cases rest with
    | nil => exact Or.inr ⟨r, bd, h.symm ▸ rfl, rfl⟩
    | cons b tail =>
      rw [snapSegGo_cons₂] at h
      by_cases h0 : distanceBetween a b = 0
      · rw [if_pos h0] at h
        exact ih cum best r bd h
      · rw [if_neg h0] at h
        rcases ih _ _ r bd h with hl | ⟨r0, bd0, hb, heq⟩
        · exact Or.inl hl
        · cases best with
          | none =>
            have : r0 = snapCandidate point wid path total cum a b := by
              have := hb
              simp only [Option.some.injEq, Prod.mk.injEq] at this
              exact this.1.symm
            exact Or.inl (by rw [heq, this]; rfl)
          | some p =>
            obtain ⟨p1, p2⟩ := p
            have hb' : (if (closestPointOnSegment point a b).distance < p2 then
                some (snapCandidate point wid path total cum a b,
                  (closestPointOnSegment point a b).distance)
              else some (p1, p2)) = some (r0, bd0) := hb
            by_cases hlt : (closestPointOnSegment point a b).distance < p2
            · rw [if_pos hlt] at hb'
              have : r0 = snapCandidate point wid path total cum a b := by
                simp only [Option.some.injEq, Prod.mk.injEq] at hb'
                exact hb'.1.symm
              exact Or.inl (by rw [heq, this]; rfl)
            · rw [if_neg hlt] at hb'
              have : r0 = p1 := by
                simp only [Option.some.injEq, Prod.mk.injEq] at hb'
                exact hb'.1.symm
              exact Or.inr ⟨p1, p2, rfl, by rw [heq, this]⟩

theorem snapFold_wallId (point : Pt) :
    ∀ (walls : List LayoutElement) (best : Option (SnapResult × ℝ)) (r : SnapResult) (bd : ℝ),
      walls.foldl
        (fun best wall =>
          let path := getWallPathPoints wall
          if path.length < 2 then best
          else snapSegGo point wall.id path (getPathLength path) 0 path best)
        best = some (r, bd) →
      (∃ w ∈ walls, r.wallId = w.id) ∨
        ∃ r0 bd0, best = some (r0, bd0) ∧ r.wallId = r0.wallId := by
  intro walls
  induction walls with
  | nil =>
    intro best r bd h
    exact Or.inr ⟨r, bd, h.symm ▸ rfl, rfl⟩
  | cons w rest ih =>
    intro best r bd h
    rw [List.foldl_cons] at h
    rcases ih _ r bd h with hl | ⟨r0, bd0, hb, heq⟩
    · obtain ⟨w', hw', he⟩ := hl
      exact Or.inl ⟨w', List.mem_cons_of_mem w hw', he⟩
    · by_cases hlen : (getWallPathPoints w).length < 2
      · have hb' : best = some (r0, bd0) := by
          have hfw : (let path := getWallPathPoints w
              if path.length < 2 then best
              else snapSegGo point w.id path (getPathLength path) 0 path best) = best := by
            show (if (getWallPathPoints w).length < 2 then best
              else snapSegGo point w.id (getWallPathPoints w)
                (getPathLength (getWallPathPoints w)) 0 (getWallPathPoints w) best) = best
            rw [if_pos hlen]
          rw [← hfw]
          exact hb
        exact Or.inr ⟨r0, bd0, hb', heq⟩
      · have hfw : (let path := getWallPathPoints w
            if path.length < 2 then best
            else snapSegGo point w.id path (getPathLength path) 0 path best) =
            snapSegGo point w.id (getWallPathPoints w)
              (getPathLength (getWallPathPoints w)) 0 (getWallPathPoints w) best := by
          show (if (getWallPathPoints w).length < 2 then best
            else snapSegGo point w.id (getWallPathPoints w)
              (getPathLength (getWallPathPoints w)) 0 (getWallPathPoints w) best) = _
          rw [if_neg hlen]
        rw [hfw] at hb
        rcases snapSegGo_wallId point w.id (getWallPathPoints w)
            (getPathLength (getWallPathPoints w)) (getWallPathPoints w) 0 best r0 bd0 hb with
          hl | ⟨r1, bd1, hb1, heq1⟩
        · exact Or.inl ⟨w, List.mem_cons_self w rest, heq.trans hl⟩
        · exact Or.inr ⟨r1, bd1, hb1, heq.trans heq1⟩

theorem findSnapPointOnWalls_eq_match (point : Pt) (walls : List LayoutElement) :
    findSnapPointOnWalls point walls =
      (match walls.foldl
          (fun best wall =>
            let path := getWallPathPoints wall
            if path.length < 2 then best
            else snapSegGo point wall.id path (getPathLength path) 0 path best)
          none with
        | none => none
        | some (r, bd) => if OPENING_SNAP_DISTANCE < bd then none else some r) := rfl

theorem findSnapPointOnWalls_wallId (point : Pt) (walls : List LayoutElement)
    (r : SnapResult) (h : findSnapPointOnWalls point walls = some r) :
    ∃ w ∈ walls, r.wallId = w.id := by
  rw [findSnapPointOnWalls_eq_match] at h
  cases hacc : walls.foldl
      (fun best wall =>
        let path := getWallPathPoints wall
        if path.length < 2 then best
        else snapSegGo point wall.id path (getPathLength path) 0 path best)
      none with
  | none => rw [hacc] at h; exact absurd h (by simp)
  | some p =>
    obtain ⟨r0, bd⟩ := p
    rw [hacc] at h
    by_cases hgt : OPENING_SNAP_DISTANCE < bd
    · rw [show (match some (r0, bd) with
        | none => (none : Option SnapResult)
        | some (r, bd) => if OPENING_SNAP_DISTANCE < bd then none else some r) =
          (if OPENING_SNAP_DISTANCE < bd then none else some r0) from rfl, if_pos hgt] at h
      exact absurd h (by simp)
    · rw [show (match some (r0, bd) with
        | none => (none : Option SnapResult)
        | some (r, bd) => if OPENING_SNAP_DISTANCE < bd then none else some r) =
          (if OPENING_SNAP_DISTANCE < bd then none else some r0) from rfl, if_neg hgt] at h
      obtain rfl : r0 = r := by simpa using h
      rcases snapFold_wallId point walls none r0 bd hacc with hl | ⟨_, _, hb, _⟩
      · exact hl
      · exact absurd hb (by simp)

theorem any_findIdx?_exists {α : Type} (p : α → Bool) (l : List α)
    (h : l.any p = true) : ∃ i, l.findIdx? p = some i := by
  induction l with
  | nil => simp at h
  | cons a t ih =>
    rw [List.findIdx?_cons]
    by_cases hp : p a
    · exact ⟨0, by simp [hp]⟩
    · simp only [List.any_cons, hp, Bool.false_or] at h
      obtain ⟨i, hi⟩ := ih h
      exact ⟨i + 1, by simp [hp, hi]⟩

/-- Claim C4: placing or dragging an opening runs the wall snap; a successful
snap writes all opening fields in one document update (one
`applyElementsChange` — the drag replaces the single indexed element, the
placement appends the single new opening element, each pushing one history
snapshot); a failed snap leaves the document untouched and reports rejection
(the caller then reverts the visual transform / keeps the uncommitted ghost). -/
theorem C4_opening_atomic (s : EditorState) (element : LayoutElement) (po : PendingOpening)
    (position : Pt) (freshId : String) (gw gh gx gy : ℝ) (ga : Option ℝ)
    (gwid : Option String) (gd gwl ghm : Option ℝ)
    (hgeom : element.geometry = some (.opening gw gh gx gy ga gwid gd gwl ghm))
    (hw : element.width ≠ 0) (hh : element.height ≠ 0)
    (hmem : s.elements.any (fun e => decide (e.id = element.id)) = true)
    (hpw : po.width ≠ 0) (hph : po.height ≠ 0) :
    (findSnapPointOnWalls position (wallElements s.elements) = none →
      handleOpeningDrag s element position freshId = (s, false) ∧
      handleOpeningPlacement s po position freshId = (s, false)) ∧
    (∀ snap, findSnapPointOnWalls position (wallElements s.elements) = some snap →
      (∃ i, s.elements.findIdx? (fun e => decide (e.id = element.id)) = some i ∧
        handleOpeningDrag s element position freshId =
          ({ s with
              elements := s.elements.set i
                { element with
                  left := snap.point.x - element.width / 2
                  top := snap.point.y - element.height / 2
                  angle := snap.angle
                  geometry := some (.opening element.width element.height
                    (snap.point.x - element.width / 2) (snap.point.y - element.height / 2)
                    (some snap.angle) (some snap.wallId) (some snap.distanceAlongPath)
                    (some snap.pathLength) (some (ghm.getD (pxToMm element.height)))) }
              history := pushHistory s.history s.elements
              selectedElementId := none },
            true)) ∧
      handleOpeningPlacement s po position freshId =
        ({ s with
            elements := s.elements ++
              [{ id := freshId
                 type := po.type
                 label := po.label ++ " " ++
                   toString ((s.elements.filter fun e => decide (e.type = po.type)).length + 1)
                 width := po.width
                 height := po.height
                 left := snap.point.x - po.width / 2
                 top := snap.point.y - po.height / 2
                 angle := snap.angle
                 fill := (palette po.type).fill
                 geometry := some (.opening po.width po.height
                   (snap.point.x - po.width / 2) (snap.point.y - po.height / 2)
                   (some snap.angle) (some snap.wallId) (some snap.distanceAlongPath)
                   (some snap.pathLength) (some (po.infoHeightMm.getD (pxToMm po.height))))
                 thicknessMm := none
                 materialName := none }]
            history := pushHistory s.history s.elements
            selectedElementId := none },
          true)) := by
  obtain ⟨eid, ety, elb, ew, eh, el, et, ean, efl, egeom, etm, emn⟩ := element
  obtain ⟨pty, pw, ph, plb, pihm⟩ := po
  simp only [] at hgeom hw hh hmem hpw hph ⊢
  subst hgeom
  constructor
  · intro hnone
    constructor
    · unfold handleOpeningDrag
      rw [hnone]
    · unfold handleOpeningPlacement
      rw [hnone]
  · intro snap hsome
    have hwallmem : s.elements.any (fun e => decide (e.id = snap.wallId)) = true := by
      obtain ⟨w, hwmem, hwid⟩ := findSnapPointOnWalls_wallId position
        (wallElements s.elements) snap hsome
      refine List.any_eq_true.mpr ⟨w, ?_, by simp [hwid]⟩
      exact (List.mem_filter.mp hwmem).1
    constructor
    · obtain ⟨i, hi⟩ := any_findIdx?_exists _ _ hmem
      refine ⟨i, hi, ?_⟩
      unfold handleOpeningDrag
      rw [hsome]
      show commitOpeningSnap s none snap
        (some ⟨eid, ety, elb, ew, eh, el, et, ean, efl,
          some (.opening gw gh gx gy ga gwid gd gwl ghm), etm, emn⟩) freshId = _
      unfold commitOpeningSnap
      dsimp only
      rw [if_neg (by rintro (hc | hc) <;> [exact hw hc; exact hh hc]),
        if_neg (not_not_intro hwallmem)]
      unfold applyElementsChange
      dsimp only
      rw [hi]
      rw [if_neg (not_not_intro hwallmem)]
      cases ghm <;> rfl
    · unfold handleOpeningPlacement
      rw [hsome]
      show commitOpeningSnap s (some ⟨pty, pw, ph, plb, pihm⟩) snap none freshId = _
      unfold commitOpeningSnap
      dsimp only
      rw [if_neg (by rintro (hc | hc) <;> [exact hpw hc; exact hph hc]),
        if_neg (not_not_intro hwallmem)]
      unfold applyElementsChange
      dsimp only
      rw [if_neg (not_not_intro hwallmem)]
      cases pihm <;> rfl

/-- A concrete opening element bound to no wall list in particular. -/
def c4opening : LayoutElement :=
  { id := "o1", type := .door, label := "Door 1", width := 120, height := 18, left := 0,
    top := 0, angle := 0, fill := "#f97316",
    geometry := some (.opening 120 18 0 0 (some 0) (some "wall-1") (some 50) (some 100)
      (some 180)),
    thicknessMm := none, materialName := none }

/-- The editor state for the C4 witness: only the opening, no walls, so the
drag position has no wall in snap range. -/
def c4state : EditorState := ⟨[c4opening], [], none, false, true⟩

/-- Claim C4 witness: with no wall in snap range both the drag and the
placement are rejected and the document is unchanged. -/
theorem C4_opening_atomic_witness :
    handleOpeningDrag c4state c4opening (Pt.mk 500 500) "fresh-id" = (c4state, false) ∧
    handleOpeningPlacement c4state ⟨.door, 120, 18, "Door", none⟩ (Pt.mk 500 500)
      "fresh-id" = (c4state, false) :=
  (C4_opening_atomic c4state c4opening ⟨.door, 120, 18, "Door", none⟩ (Pt.mk 500 500)
    "fresh-id" 120 18 0 0 (some 0) (some "wall-1") (some 50) (some 100) (some 180) rfl
    (by norm_num [c4opening]) (by norm_num [c4opening]) (by rfl) (by norm_num)
    (by norm_num)).1 rfl

/-! ### Claim C10: structure of the sub-paths returned by the subtraction -/

theorem getPathLength_nil : getPathLength [] = 0 := rfl

theorem getPathLength_single (a : Pt) : getPathLength [a] = 0 := rfl

theorem getPathLength_cons₂ (a b : Pt) (rest : List Pt) :
    getPathLength (a :: b :: rest) = distanceBetween a b + getPathLength (b :: rest) := rfl

theorem getPathLength_nonneg : ∀ l : List Pt, 0 ≤ getPathLength l
  | [] => le_refl 0
  | [_] => le_refl 0
  | a :: b :: rest => by
    rw [getPathLength_cons₂]
    have h1 := distanceBetween_nonneg a b
    have h2 := getPathLength_nonneg (b :: rest)
    linarith

theorem normGo_cons (prev q : Pt) (rest : List Pt) :
    normGo prev (q :: rest) =
      if q.x = prev.x ∧ q.y = prev.y then normGo prev rest else q :: normGo q rest := rfl

theorem normGo_eq_of_chain :
    ∀ (l : List Pt) (prev : Pt), List.Chain' (· ≠ ·) (prev :: l) → normGo prev l = l := by
  intro l
  induction l with
  | nil => intro prev _; rfl
  | cons q rest ih =>
    intro prev hch
    rw [List.chain'_cons] at hch
    rw [normGo_cons, if_neg (fun hc => hch.1 (Pt.ext_iff_xy.mpr ⟨hc.1.symm, hc.2.symm⟩)),
      ih q hch.2]

theorem normalizePath_eq_of_chain (l : List Pt) (h : List.Chain' (· ≠ ·) l) :
    normalizePath l = l := by
  cases l with
  | nil => rfl
  | cons p rest =>
    rw [show normalizePath (p :: rest) = p :: normGo p rest from rfl,
      normGo_eq_of_chain rest p h]

theorem normGo_chain :
    ∀ (l : List Pt) (prev : Pt), List.Chain' (· ≠ ·) (prev :: normGo prev l) := by
  intro l
  induction l with
  | nil =>
    intro prev
    rw [show normGo prev [] = [] from rfl]
    simp
  | cons q rest ih =>
    intro prev
    rw [normGo_cons]
    by_cases hc : q.x = prev.x ∧ q.y = prev.y
    · rw [if_pos hc]
      exact ih prev
    · rw [if_neg hc]
      rw [List.chain'_cons]
      exact ⟨fun he => hc ⟨(congrArg Pt.x he).symm, (congrArg Pt.y he).symm⟩, ih q⟩

theorem normalizePath_chain (l : List Pt) : List.Chain' (· ≠ ·) (normalizePath l) := by
  cases l with
  | nil => simp [normalizePath]
  | cons p rest =>
    rw [show normalizePath (p :: rest) = p :: normGo p rest from rfl]
    exact normGo_chain rest p

theorem splitGo_isSome :
    ∀ (rest : List Pt) (start : Pt) (pref : List Pt) (remaining : ℝ),
      0 < remaining → remaining ≤ getPathLength (start :: rest) →
      (splitGo start rest pref remaining).isSome := by
  intro rest
  induction rest with
  | nil =>
    intro start pref remaining h0 h1
    rw [getPathLength_single] at h1
    linarith
  | cons next tail ih =>
    intro start pref remaining h0 h1
    rw [getPathLength_cons₂] at h1
    rw [splitGo_cons]
    by_cases hz : distanceBetween start next = 0
    · rw [if_pos hz]
      exact ih next pref remaining h0 (by rw [hz] at h1; linarith)
    · rw [if_neg hz]
      by_cases hlt : remaining < distanceBetween start next
      · rw [if_pos hlt]; rfl
      · rw [if_neg hlt]
        by_cases heq : remaining = distanceBetween start next
        · rw [if_pos heq]; rfl
        · rw [if_neg heq]
          have hgt : distanceBetween start next < remaining :=
            lt_of_le_of_ne (not_lt.mp hlt) (Ne.symm heq)
          exact ih next (next :: pref) (remaining - distanceBetween start next)
            (by linarith) (by linarith)

theorem splitGo_some_props :
    ∀ (rest : List Pt) (start : Pt) (pref : List Pt) (remaining : ℝ) (pre rem : List Pt),
      splitGo start rest pref remaining = some (pre, rem) →
      0 < remaining → pref.head? = some start → List.Chain' (· ≠ ·) pref →
      List.Chain' (· ≠ ·) pre ∧ pref.length + 1 ≤ pre.length ∧ rem ≠ [] := by
  intro rest
  induction rest with
  | nil => intro start pref remaining pre rem h; exact absurd h (by rw [splitGo_nil]; simp)
  | cons next tail ih =>
    intro start pref remaining pre rem h h0 hhead hch
    rw [splitGo_cons] at h
    by_cases hz : distanceBetween start next = 0
    · rw [if_pos hz] at h
      have hsn : start = next := distanceBetween_eq_zero_iff.mp hz
      exact ih next pref remaining pre rem h h0 (by rw [← hsn]; exact hhead) hch
    · rw [if_neg hz] at h
      have hchainpush : ∀ q : Pt, q ≠ start → List.Chain' (· ≠ ·) (q :: pref) := by
        intro q hq
        cases pref with
        | nil => simp
        | cons p0 ptail =>
          have hp0 : p0 = start := by simpa using hhead
          rw [List.chain'_cons]
          exact ⟨by rw [hp0]; exact hq, hch⟩
      by_cases hlt : remaining < distanceBetween start next
      · rw [if_pos hlt] at h
        obtain ⟨hpre, hrem⟩ : (lerpPt start next (remaining / distanceBetween start next)
            :: pref).reverse = pre ∧
            lerpPt start next (remaining / distanceBetween start next) :: next :: tail = rem := by
          simpa using h
        have hne : lerpPt start next (remaining / distanceBetween start next) ≠ start := by
          intro he
          exact lerpPt_ne_left start next (by positivity) hz
            ⟨congrArg Pt.x he, congrArg Pt.y he⟩
        refine ⟨?_, ?_, by rw [← hrem]; simp⟩
        · rw [← hpre, List.chain'_reverse]
          exact (hchainpush _ hne).imp fun a b hab => Ne.symm hab
        · rw [← hpre, List.length_reverse, List.length_cons]
      · rw [if_neg hlt] at h
        by_cases heq : remaining = distanceBetween start next
        · rw [if_pos heq] at h
          obtain ⟨hpre, hrem⟩ : (next :: pref).reverse = pre ∧ next :: tail = rem := by
            simpa using h
          have hne : next ≠ start := fun he =>
            hz (distanceBetween_eq_zero_iff.mpr he.symm)
          refine ⟨?_, ?_, by rw [← hrem]; simp⟩
          · rw [← hpre, List.chain'_reverse]
            exact (hchainpush _ hne).imp fun a b hab => Ne.symm hab
          · rw [← hpre, List.length_reverse, List.length_cons]
        · rw [if_neg heq] at h
          have hgt : distanceBetween start next < remaining :=
            lt_of_le_of_ne (not_lt.mp hlt) (Ne.symm heq)
          have hne : next ≠ start := fun he =>
            hz (distanceBetween_eq_zero_iff.mpr he.symm)
          obtain ⟨hcpre, hlen, hrem⟩ := ih next (next :: pref)
            (remaining - distanceBetween start next) pre rem h (by linarith) (by simp)
            (hchainpush next hne)
          refine ⟨hcpre, ?_, hrem⟩
          rw [List.length_cons] at hlen
          omega

theorem splitGo_rem_len :
    ∀ (rest : List Pt) (start : Pt) (pref : List Pt) (remaining : ℝ) (pre rem : List Pt),
      splitGo start rest pref remaining = some (pre, rem) →
      getPathLength rem = getPathLength (start :: rest) - remaining := by
  intro rest
  induction rest with
  | nil => intro start pref remaining pre rem h; exact absurd h (by rw [splitGo_nil]; simp)
  | cons next tail ih =>
    intro start pref remaining pre rem h
    rw [splitGo_cons] at h
    rw [getPathLength_cons₂]
    by_cases hz : distanceBetween start next = 0
    · rw [if_pos hz] at h
      rw [hz, zero_add]
      exact ih next pref remaining pre rem h
    · rw [if_neg hz] at h
      by_cases hlt : remaining < distanceBetween start next
      · rw [if_pos hlt] at h
        obtain ⟨_, hrem⟩ : (lerpPt start next (remaining / distanceBetween start next)
            :: pref).reverse = pre ∧
            lerpPt start next (remaining / distanceBetween start next) :: next :: tail = rem := by
          simpa using h
        rw [← hrem, getPathLength_cons₂,
          distanceBetween_lerp_right start next
            (by rw [div_le_one (lt_of_le_of_ne (distanceBetween_nonneg start next)
              (Ne.symm hz))]; linarith)]
        field_simp
        ring
      · rw [if_neg hlt] at h
        by_cases heq : remaining = distanceBetween start next
        · rw [if_pos heq] at h
          obtain ⟨_, hrem⟩ : (next :: pref).reverse = pre ∧ next :: tail = rem := by
            simpa using h
          rw [← hrem, heq]
          ring
        · rw [if_neg heq] at h
          rw [ih next (next :: pref) (remaining - distanceBetween start next) pre rem h]
          ring

theorem splitPath_pre_props (points : List Pt) (target : ℝ) (h0 : 0 < target)
    (h1 : target ≤ getPathLength points) :
    List.Chain' (· ≠ ·) (splitPathAtLength points target).1 ∧
      2 ≤ (splitPathAtLength points target).1.length := by
  cases points with
  | nil => rw [getPathLength_nil] at h1; linarith
  | cons p rest =>
    rw [splitPathAtLength_cons, if_neg (not_le.mpr h0)]
    have hsome := splitGo_isSome rest p [p] target h0 h1
    cases hgo : splitGo p rest [p] target with
    | none => rw [hgo] at hsome; simp at hsome
    | some pr =>
      obtain ⟨pre, rem⟩ := pr
      obtain ⟨hc, hl, _⟩ := splitGo_some_props rest p [p] target pre rem hgo h0 rfl (by simp)
      exact ⟨hc, by simpa using hl⟩

theorem splitPath_rem_len (points : List Pt) (target : ℝ) (h0 : 0 < target)
    (h1 : target ≤ getPathLength points) :
    getPathLength (splitPathAtLength points target).2 = getPathLength points - target := by
  cases points with
  | nil => rw [getPathLength_nil] at h1; linarith
  | cons p rest =>
    rw [splitPathAtLength_cons, if_neg (not_le.mpr h0)]
    have hsome := splitGo_isSome rest p [p] target h0 h1
    cases hgo : splitGo p rest [p] target with
    | none => rw [hgo] at hsome; simp at hsome
    | some pr =>
      obtain ⟨pre, rem⟩ := pr
      exact splitGo_rem_len rest p [p] target pre rem hgo

theorem extract_props (points : List Pt) (s e : ℝ) (h0 : 0 ≤ s) (hse : s < e)
    (heL : e ≤ getPathLength points) :
    List.Chain' (· ≠ ·) (extractPathSection points s e) ∧
      2 ≤ (extractPathSection points s e).length := by
  rw [extractPathSection_eq, if_neg (not_le.mpr hse)]
  by_cases hs0 : s ≤ 0
  · have hs : s = 0 := le_antisymm hs0 h0
    cases points with
    | nil => rw [getPathLength_nil] at heL; linarith
    | cons p rest =>
      rw [splitPathAtLength_cons, if_pos hs0]
      exact splitPath_pre_props (p :: rest) (e - s) (by linarith) (by rw [hs]; simpa)
  · have hs : 0 < s := not_le.mp hs0
    have hrem := splitPath_rem_len points s hs (by linarith)
    exact splitPath_pre_props _ (e - s) (by linarith) (by rw [hrem]; linarith)

theorem subtractGo_props (points : List Pt) :
    ∀ (ivs : List CutInterval) (cursor : ℝ), 0 ≤ cursor →
      (∀ iv ∈ ivs, iv.start ≤ getPathLength points ∧ 0 ≤ iv.stop ∧
        iv.stop ≤ getPathLength points) →
      ∀ seg ∈ subtractGo points (getPathLength points) cursor ivs,
        List.Chain' (· ≠ ·) seg ∧ 2 ≤ seg.length := by
  intro ivs
  induction ivs with
  | nil =>
    intro cursor hc _ seg hseg
    rw [subtractGo_nil_eq] at hseg
    by_cases hcur : cursor < getPathLength points
    · rw [if_pos hcur] at hseg
      obtain ⟨hch, hlen⟩ := extract_props points cursor (getPathLength points) hc hcur le_rfl
      rw [if_pos hlen] at hseg
      rw [List.mem_singleton.mp hseg, normalizePath_eq_of_chain _ hch]
      exact ⟨hch, hlen⟩
    · rw [if_neg hcur] at hseg
      simp at hseg
  | cons iv rest ih =>
    intro cursor hc hbounds seg hseg
    rw [subtractGo_cons_eq] at hseg
    obtain ⟨hivs, hiv0, hivL⟩ := hbounds iv (List.mem_cons_self iv rest)
    rcases List.mem_append.mp hseg with hseg | hseg
    · by_cases hcur : cursor < iv.start
      · rw [if_pos hcur] at hseg
        obtain ⟨hch, hlen⟩ := extract_props points cursor iv.start hc hcur hivs
        rw [if_pos hlen] at hseg
        rw [List.mem_singleton.mp hseg, normalizePath_eq_of_chain _ hch]
        exact ⟨hch, hlen⟩
      · rw [if_neg hcur] at hseg
        simp at hseg
    · exact ih (max cursor iv.stop) (le_trans hc (le_max_left _ _))
        (fun x hx => hbounds x (List.mem_cons_of_mem iv hx)) seg hseg

/-- Claim C10, amended: every sub-path returned by `subtractIntervalsFromPath`
has no two consecutive equal points; and whenever the interval list is
non-empty, every returned sub-path also has at least two points (sections
that would collapse are dropped). With an empty interval list the path is
returned whole (normalized only), which can have fewer than two points. -/
theorem C10_subpath_invariant_amended (points : List Pt) (intervals : List CutInterval) :
    (∀ seg ∈ subtractIntervalsFromPath points intervals, List.Chain' (· ≠ ·) seg) ∧
    (intervals ≠ [] →
      ∀ seg ∈ subtractIntervalsFromPath points intervals, 2 ≤ seg.length) := by
  by_cases hnil : intervals = []
  · subst hnil
    constructor
    · intro seg hseg
      rw [subtractIntervalsFromPath_eq, if_pos rfl] at hseg
      rw [List.mem_singleton.mp hseg]
      exact normalizePath_chain points
    · intro h; exact absurd rfl h
  · have hbody : ∀ seg ∈ subtractIntervalsFromPath points intervals,
        List.Chain' (· ≠ ·) seg ∧ 2 ≤ seg.length := by
      intro seg hseg
      rw [subtractIntervalsFromPath_eq, if_neg hnil] at hseg
      by_cases hz : getPathLength points = 0
      · rw [if_pos hz] at hseg
        simp at hseg
      · rw [if_neg hz] at hseg
        refine subtractGo_props points _ 0 le_rfl ?_ seg hseg
        intro iv hiv
        have hperm := List.mergeSort_perm
          ((intervals.map (fun i =>
            CutInterval.mk (max 0 (min i.start (getPathLength points)))
              (max 0 (min i.stop (getPathLength points))))).filter
            (fun i => decide (i.start < i.stop)))
          (fun a b => decide (a.start ≤ b.start))
        have hmem := hperm.mem_iff.mp hiv
        obtain ⟨iv0, _, hiv0⟩ := List.mem_map.mp (List.mem_filter.mp hmem).1
        have hLnn : 0 ≤ getPathLength points := getPathLength_nonneg points
        rw [← hiv0]
        refine ⟨?_, le_max_left 0 _, ?_⟩
        · exact max_le hLnn (min_le_right _ _)
        · exact max_le hLnn (min_le_right _ _)
    exact ⟨fun seg hseg => (hbody seg hseg).1, fun _ seg hseg => (hbody seg hseg).2⟩

/-- Claim C10, counterexample: with an empty interval list a single-point
path is returned as a single-point sub-path, violating the claimed
two-point minimum. -/
theorem C10_subpath_counterexample :
    subtractIntervalsFromPath [Pt.mk 0 0] [] = [[Pt.mk 0 0]] ∧
    ∃ seg ∈ subtractIntervalsFromPath [Pt.mk 0 0] [], seg.length < 2 := by
  constructor
  · rfl
  · refine ⟨[Pt.mk 0 0], ?_, by norm_num⟩
    rw [show subtractIntervalsFromPath [Pt.mk 0 0] [] = [[Pt.mk 0 0]] from rfl]
    exact List.mem_singleton.mpr rfl

/-- Claim C10 witness: for a concrete non-empty interval list, the first
returned sub-path of a cut wall has the required two points. -/
theorem C10_subpath_invariant_amended_witness :
    ([⟨3, 7⟩] : List CutInterval) ≠ [] ∧
    2 ≤ ([Pt.mk 0 0,
      lerpPt (Pt.mk 0 0) (Pt.mk 10 0) (3 / distanceBetween (Pt.mk 0 0) (Pt.mk 10 0))] :
        List Pt).length := by
  have hd : distanceBetween (Pt.mk 0 0) (Pt.mk 10 0) = 10 := by
    unfold distanceBetween
    simp only []
    norm_num [hypot_zero_right]
  refine ⟨by simp, ?_⟩
  refine (C10_subpath_invariant_amended [Pt.mk 0 0, Pt.mk 10 0] [⟨3, 7⟩]).2 (by simp) _ ?_
  rw [subtract_single_on_two (Pt.mk 0 0) (Pt.mk 10 0) (by norm_num : (0:ℝ) ≤ 3)
    (by norm_num : (3:ℝ) < 7) (by rw [hd]; norm_num)]
  rw [if_pos (by norm_num : (0:ℝ) < 3), if_pos (by rw [hd]; norm_num : (7:ℝ) < distanceBetween (Pt.mk 0 0) (Pt.mk 10 0))]
  exact List.mem_append.mpr (Or.inl (List.mem_singleton.mpr rfl))

/-! ### Claim C6: undo snapshots consumed by an endpoint-drag gesture -/

theorem applyElementsChange_transient_history (s : EditorState)
    (producer : List LayoutElement → Option (List LayoutElement))
    (pid : Option String) :
    ((applyElementsChange s producer true pid).1).history = s.history := by
  unfold applyElementsChange
  cases hp : producer s.elements with
  | none => rfl
  | some next => cases pid <;> rfl

theorem applyElementsChange_nontransient_history (s : EditorState)
    (producer : List LayoutElement → Option (List LayoutElement))
    (pid : Option String) :
    ((applyElementsChange s producer false pid).1).history = s.history ∨
    ((applyElementsChange s producer false pid).1).history =
      pushHistory s.history s.elements := by
  unfold applyElementsChange
  cases hp : producer s.elements with
  | none => exact Or.inl rfl
  | some next =>
    refine Or.inr ?_
    cases pid <;> rfl

theorem applyElementsChange_some_history (s : EditorState)
    (producer : List LayoutElement → Option (List LayoutElement))
    (pid : Option String) (next : List LayoutElement)
    (h : producer s.elements = some next) :
    ((applyElementsChange s producer false pid).1).history =
      pushHistory s.history s.elements := by
  unfold applyElementsChange
  rw [h]
  cases pid <;> rfl

theorem applyElementsChange_some_elements (s : EditorState)
    (producer : List LayoutElement → Option (List LayoutElement))
    (pid : Option String) (next : List LayoutElement)
    (h : producer s.elements = some next) :
    ((applyElementsChange s producer false pid).1).elements = next := by
  unfold applyElementsChange
  rw [h]
  cases pid <;> rfl

theorem dragMoves_history (wallId : String) (endpointIndex : ℕ) :
    ∀ (moves : List Pt) (s : EditorState),
      (moves.foldl (fun st p => handleEndpointHandleDragMove st wallId endpointIndex p)
        s).history = s.history := by
  intro moves
  induction moves with
  | nil => intro s; rfl
  | cons p rest ih =>
    intro s
    rw [List.foldl_cons, ih]
    exact applyElementsChange_transient_history s _ (some wallId)

/-- Claim C6, amended: an endpoint-drag gesture always pushes exactly one
snapshot at drag start; the intermediate (transient) moves never push; the
final non-transient update at release pushes at most one more snapshot — it
pushes nothing when its re-snap leaves the endpoint in place (the typical
release), and one more when it still moves the endpoint. -/
theorem C6_drag_gesture_amended (s : EditorState) (wallId : String) (endpointIndex : ℕ)
    (moves : List Pt) (releasePt : Pt) (hg : s.endpointDragSnapshot = false) :
    (endpointDragGesture s wallId endpointIndex moves releasePt).history =
        pushHistory s.history s.elements ∨
      ∃ mid : List LayoutElement,
        (endpointDragGesture s wallId endpointIndex moves releasePt).history =
          pushHistory (pushHistory s.history s.elements) mid := by
  unfold endpointDragGesture handleEndpointHandleDragStart
  have hs1 : captureEndpointDragSnapshot s =
      { s with history := pushHistory s.history s.elements, endpointDragSnapshot := true } := by
    unfold captureEndpointDragSnapshot
    rw [hg]
    rfl
  rw [hs1]
  set s1 : EditorState :=
    { s with history := pushHistory s.history s.elements, endpointDragSnapshot := true }
  set s2 := moves.foldl (fun st p => handleEndpointHandleDragMove st wallId endpointIndex p) s1
    with hs2
  have hs2h : s2.history = pushHistory s.history s.elements := by
    rw [hs2, dragMoves_history]
  unfold handleEndpointHandleDragEnd releaseEndpointDragSnapshot
  show (((applyWallEndpointUpdate s2 wallId endpointIndex releasePt false).1).history = _) ∨ _
  unfold applyWallEndpointUpdate
  rcases applyElementsChange_nontransient_history s2 _ (some wallId) with h | h
  · exact Or.inl (by rw [h, hs2h])
  · exact Or.inr ⟨s2.elements, by rw [h, hs2h]⟩

/-- Claim C6 witness: a trivial gesture (no matching wall) consumes exactly
the one snapshot pushed at drag start. -/
theorem C6_drag_gesture_amended_witness :
    (endpointDragGesture initialEditorState "w" 1 [] (Pt.mk 0 0)).history =
      pushHistory initialEditorState.history initialEditorState.elements := by
  rcases C6_drag_gesture_amended initialEditorState "w" 1 [] (Pt.mk 0 0) rfl with h | ⟨mid, h⟩
  · exact h
  · exfalso
    have hcomp : (endpointDragGesture initialEditorState "w" 1 [] (Pt.mk 0 0)).history =
        [[]] := rfl
    rw [hcomp] at h
    have hlen := congrArg List.length h
    rw [show pushHistory initialEditorState.history initialEditorState.elements =
        [[]] from rfl] at hlen
    rw [pushHistory_of_lt (by norm_num [UNDO_HISTORY_LIMIT] :
        (([[]] : List (List LayoutElement))).length < UNDO_HISTORY_LIMIT) mid] at hlen
    simp at hlen

theorem hypot_sq (x y : ℝ) : hypot x y ^ 2 = x ^ 2 + y ^ 2 :=
  Real.sq_sqrt (by positivity)

/-- Wall A of the C6 scenario: a horizontal wall from (0,0) to (100,0). -/
def c6wallA : LayoutElement :=
  ⟨"a", .wall, "Wall A", 100, 1, 0, 0, 0, "#5b5b63",
    some (.polyline [0, 0, 100, 0]), none, none⟩

/-- Wall B of the C6 scenario: a wall from (100,12) to (112,4), its first
endpoint within the connection tolerance of A's endpoint (100,0). -/
def c6wallB : LayoutElement :=
  ⟨"b", .wall, "Wall B", 1, 12, 100, 4, 0, "#5b5b63",
    some (.polyline [100, 12, 112, 4]), none, none⟩

/-- Wall A after the transient move of its second endpoint to the snapped
position (112,4). -/
def c6wallAmoved : LayoutElement :=
  { c6wallA with
    left := 0
    top := 0
    width := 112
    height := 4
    geometry := some (.polyline [0, 0, 112, 4]) }

/-- Wall B after connection propagation of the transient move: its first
endpoint follows A's endpoint by the move delta (12,4). -/
def c6wallBmoved : LayoutElement :=
  { c6wallB with
    left := 112
    top := 4
    width := 1
    height := 12
    geometry := some (.polyline [112, 16, 112, 4]) }

/-- The C6 scenario state: walls A and B, empty history, ortho mode off. -/
def c6state : EditorState := ⟨[c6wallA, c6wallB], [], none, false, false⟩

set_option maxHeartbeats 4000000 in
/-- Claim C6 counterexample: an endpoint-drag gesture of wall A's second
endpoint with one intermediate move to (112,16) and release at (112,16)
pushes TWO undo snapshots, not one. The transient move snaps the endpoint to
B's endpoint (112,4) and drags B's connected endpoint along; at release the
re-snap finds the moved B endpoint (112,16) at distance 0, which is ≥ 0.5
away from the wall's current endpoint, so the release commits a second,
non-transient update that pushes again. -/
theorem C6_drag_gesture_counterexample :
    (endpointDragGesture c6state "a" 1 [Pt.mk 112 16] (Pt.mk 112 16)).history.length = 2 := by
  have hstart : handleEndpointHandleDragStart c6state =
      ⟨[c6wallA, c6wallB], [[c6wallA, c6wallB]], none, true, false⟩ := rfl
  have hmove : handleEndpointHandleDragMove
      ⟨[c6wallA, c6wallB], [[c6wallA, c6wallB]], none, true, false⟩ "a" 1 (Pt.mk 112 16) =
      ⟨[c6wallAmoved, c6wallBmoved], [[c6wallA, c6wallB]], some "a", true, false⟩ := by
    norm_num [handleEndpointHandleDragMove, applyWallEndpointUpdate, applyElementsChange,
      getSnappedPoint, applyOrthoPoint, wallSnapPoints, wallSnapRefs, wallElements,
      getWallPathPoints, toPointPairs, ptAt, distanceBetween, boundsFromPoints,
      flattenPoints, roundTo2, round_eq, propagateWallConnections,
      adjustWallEndpointGeometry, c6wallA, c6wallB, c6wallAmoved, c6wallBmoved,
      WALL_SNAP_THRESHOLD, WALL_CONNECTION_TOLERANCE, hypot_lt_iff, hypot_le_iff,
      hypot_nonneg, hypot_sq, min_def, max_def, abs_of_nonneg, LayoutGeometry.isOpening,
      List.findIdx?_cons, List.getD_cons_zero, List.getD_cons_succ]
  have hend : (handleEndpointHandleDragEnd
      ⟨[c6wallAmoved, c6wallBmoved], [[c6wallA, c6wallB]], some "a", true, false⟩
      "a" 1 (Pt.mk 112 16)).history =
      [[c6wallA, c6wallB], [c6wallAmoved, c6wallBmoved]] := by
    norm_num [handleEndpointHandleDragEnd, releaseEndpointDragSnapshot,
      applyWallEndpointUpdate, applyElementsChange, pushHistory, UNDO_HISTORY_LIMIT,
      getSnappedPoint, applyOrthoPoint, wallSnapPoints, wallSnapRefs, wallElements,
      getWallPathPoints, toPointPairs, ptAt, distanceBetween, boundsFromPoints,
      flattenPoints, roundTo2, round_eq, propagateWallConnections,
      adjustWallEndpointGeometry, c6wallA, c6wallB, c6wallAmoved, c6wallBmoved,
      WALL_SNAP_THRESHOLD, WALL_CONNECTION_TOLERANCE, hypot_lt_iff, hypot_le_iff,
      hypot_nonneg, hypot_sq, min_def, max_def, abs_of_nonneg, LayoutGeometry.isOpening,
      List.findIdx?_cons, List.getD_cons_zero, List.getD_cons_succ]
  unfold endpointDragGesture
  rw [hstart, List.foldl_cons, List.foldl_nil]
  show (handleEndpointHandleDragEnd (handleEndpointHandleDragMove
      ⟨[c6wallA, c6wallB], [[c6wallA, c6wallB]], none, true, false⟩ "a" 1 (Pt.mk 112 16))
      "a" 1 (Pt.mk 112 16)).history.length = 2
  rw [hmove, hend]
  rfl

end
end P2
